import Mathlib

/-!
Shallow embedding of the Restro restaurant-management checkout core.

Sources embedded here:
  * `parseCheckoutItems` and `executeCheckout` from the sales route
    (src/public/js/app.js, the concatenated routes/sales.js part);
  * `withTransaction` from src/database/db.js (BEGIN / COMMIT / ROLLBACK);
  * `setProductIngredients`, PUT /api/products/:id and DELETE /api/products/:id
    from src/routes/products.js;
  * POST and PUT /api/raw-materials/:id from the raw-materials route;
  * the schema's referential actions from src/database/db.js
    (Sales.product_id ON DELETE CASCADE, ProductIngredients.product_id
    ON DELETE CASCADE).

Quantities, prices and costs are DOUBLE PRECISION columns in the store;
they are modelled as rationals (ℚ), and the INTEGER columns `quantity`
and `sell_count` are also kept as ℚ: the routes never round them
themselves, so the model is faithful for integer-quantity carts, while
for a fractional quantity the database itself would reject the
serialized value for the INTEGER column inside the transaction (a
storage error, not part of any modelled error path); statements about
the validation layer, which runs before the transaction opens, are
unaffected by this collapse. Row sets are
modelled as lists in insertion order; a JavaScript `Map` is modelled as
an association list in first-insertion order (`bumpAssoc`).
-/

namespace Restro

/-- A RawMaterials row. -/
structure RawMaterial where
  id : String
  name : String
  quantity_available : ℚ
  unit : String
  cost_per_unit : ℚ
  low_stock_threshold : ℚ
deriving DecidableEq, Repr

instance : Inhabited RawMaterial := ⟨⟨"", "", 0, "", 0, 0⟩⟩

/-- A Products row (photo_url omitted: no modelled route reads it). -/
structure Product where
  id : String
  name : String
  manufacturing_cost : ℚ
  selling_price : ℚ
  sell_count : ℚ
deriving DecidableEq, Repr

instance : Inhabited Product := ⟨⟨"", "", 0, 0, 0⟩⟩

/-- A ProductIngredients row (the surrogate uuid primary key is omitted:
no modelled code path reads it). -/
structure IngredientRow where
  product_id : String
  raw_material_id : String
  quantity_used : ℚ
deriving DecidableEq, Repr

/-- A Sales row (date_time omitted: no modelled code path reads it). -/
structure Sale where
  id : String
  product_id : String
  quantity : ℚ
  total_price : ℚ
  total_profit : ℚ
deriving DecidableEq, Repr

/-- The relational store. -/
structure Store where
  products : List Product
  rawMaterials : List RawMaterial
  ingredients : List IngredientRow
  sales : List Sale
deriving DecidableEq, Repr

/-- A raw cart line as received from the request body.
`product_id = none` models a missing/falsy id (`!productId`);
`quantity = none` models a value whose `Number(...)` is not finite. -/
structure RawCartItem where
  product_id : Option String
  quantity : Option ℚ
deriving DecidableEq, Repr

/-- A coalesced cart line (output of `parseCheckoutItems`). -/
structure CartItem where
  product_id : String
  quantity : ℚ
deriving DecidableEq, Repr

/-- JavaScript `Map.set(k, (get(k) ?? 0) + q)`: update the entry in place
when the key is present, else append it. -/
def bumpAssoc (l : List (String × ℚ)) (k : String) (q : ℚ) : List (String × ℚ) :=
  if l.any (fun p => p.1 = k) then
    l.map (fun p => if p.1 = k then (p.1, p.2 + q) else p)
  else
    l ++ [(k, q)]

/-- Association-list read with default 0 (JS `map.get(k) || 0`): the
first entry for the key wins, as in `List.find?`. -/
def lookupQ : List (String × ℚ) → String → ℚ
  | [], _ => 0
  | p :: t, k => if p.1 = k then p.2 else lookupQ t k

/-- Whether one raw cart line passes the per-line validation
`!productId || !Number.isFinite(quantity) || quantity <= 0`. -/
def validLine (it : RawCartItem) : Prop :=
  ∃ pid q, it.product_id = some pid ∧ pid ≠ "" ∧ it.quantity = some q ∧ 0 < q

instance (it : RawCartItem) : Decidable (validLine it) := by
  unfold validLine
  cases hp : it.product_id with
  | none => exact .isFalse (by simp [hp])
  | some pid =>
    cases hq : it.quantity with
    | none => exact .isFalse (by simp [hp, hq])
    | some q =>
      by_cases h1 : pid = ""
      · exact .isFalse (by simp [hp, hq, h1])
      · by_cases h2 : 0 < q
        · exact .isTrue ⟨pid, q, by simp [hp, hq, h1, h2]⟩
        · exact .isFalse (by simp [hp, hq, h2])

/-- `parseCheckoutItems(rawItems)`: reject an empty cart, validate each
line, coalesce lines by product into a `Map`, and return its entries. -/
def parseCheckoutItems (raw : List RawCartItem) : Except String (List CartItem) :=
  if raw.isEmpty then
    .error ("At least one cart item is required.")
  else do
    let pairs ← raw.foldlM (fun acc it =>
      match it.product_id, it.quantity with
      | some pid, some q =>
          if pid ≠ "" ∧ 0 < q then
            pure (bumpAssoc acc pid q)
          else
            .error ("Each cart item must include product_id and quantity > 0.")
      | _, _ => .error ("Each cart item must include product_id and quantity > 0."))
      ([] : List (String × ℚ))
    pure (pairs.map (fun p => ⟨p.1, p.2⟩))

/-- One row of the ingredient query
`SELECT pi.product_id, pi.raw_material_id, pi.quantity_used, rm.name,
rm.unit, rm.quantity_available FROM ProductIngredients pi JOIN
RawMaterials rm ON rm.id = pi.raw_material_id WHERE pi.product_id IN …`. -/
structure JoinedIngredient where
  product_id : String
  raw_material_id : String
  quantity_used : ℚ
  raw_material_name : String
  raw_material_unit : String
  quantity_available : ℚ
deriving DecidableEq, Repr

def findMaterial (s : Store) (mid : String) : Option RawMaterial :=
  s.rawMaterials.find? (fun rm => rm.id = mid)

def findProduct (s : Store) (pid : String) : Option Product :=
  s.products.find? (fun p => p.id = pid)

/-- The ingredient JOIN query for the cart's products. -/
def loadIngredientRows (s : Store) (pids : List String) : List JoinedIngredient :=
  s.ingredients.filterMap (fun pi =>
    if pids.contains pi.product_id then
      (findMaterial s pi.raw_material_id).map (fun rm =>
        ⟨pi.product_id, pi.raw_material_id, pi.quantity_used, rm.name, rm.unit,
          rm.quantity_available⟩)
    else none)

/-- `requiredByMaterial`: for each cart line, for each of its ingredient
rows, add `quantity_used * line.quantity` into the per-material map. -/
def computeRequired (items : List CartItem) (rows : List JoinedIngredient) :
    List (String × ℚ) :=
  items.foldl (fun acc item =>
    (rows.filter (fun r => r.product_id = item.product_id)).foldl
      (fun acc2 ing => bumpAssoc acc2 ing.raw_material_id (ing.quantity_used * item.quantity))
      acc)
    []

/-- `materialMeta.get(mid)`: the code builds the meta map by iterating all
joined rows and calling `set`, so the last row for a material wins. -/
def materialMeta (rows : List JoinedIngredient) (mid : String) : Option JoinedIngredient :=
  (rows.filter (fun r => r.raw_material_id = mid)).getLast?

/-- One shortfall descriptor pushed into `insufficiencies`. -/
structure Shortfall where
  raw_material_id : String
  raw_material_name : String
  required : ℚ
  available : ℚ
  unit : String
deriving DecidableEq, Repr

/-- The `insufficiencies` list: every entry of `requiredByMaterial` whose
required total exceeds the meta's available quantity. -/
def insufficiencies (rows : List JoinedIngredient) (req : List (String × ℚ)) :
    List Shortfall :=
  req.filterMap (fun e =>
    match materialMeta rows e.1 with
    | none => none
    | some m =>
        if m.quantity_available < e.2 then
          some ⟨e.1, m.raw_material_name, e.2, m.quantity_available, m.raw_material_unit⟩
        else none)

/-- One element of `salesCreated` in the success payload. -/
structure SaleLine where
  id : String
  product_id : String
  product_name : String
  quantity : ℚ
  total_price : ℚ
  total_profit : ℚ
deriving DecidableEq, Repr

/-- The success payload of `executeCheckout`. -/
structure CheckoutResult where
  sales : List SaleLine
  total_bill : ℚ
  total_profit : ℚ
  total_items : ℚ
  transaction_count : Nat
deriving DecidableEq, Repr

/-- The checkout error taxonomy as thrown by the route. -/
inductive CheckoutError where
  | validation (msg : String)
  | productNotFound
  | insufficientStock (details : List Shortfall)
  | stockChanged
deriving DecidableEq, Repr

/-- The per-line insert loop: `INSERT INTO Sales …` then
`UPDATE Products SET sell_count = sell_count + ? WHERE id = ?`, while
accumulating `salesCreated`, `totalBill`, `totalProfit`, `totalItems`.
Prices come from the `products` snapshot selected at the start of the
transaction; sale ids stand in for `uuidv4()`. -/
def insertSales (products : List Product) (items : List CartItem) (s : Store) :
    Store × List SaleLine × ℚ × ℚ × ℚ :=
  items.foldl (fun acc item =>
    let st := acc.1
    let lines := acc.2.1
    let bill := acc.2.2.1
    let profit := acc.2.2.2.1
    let n := acc.2.2.2.2
    let p := ((products.find? (fun p => p.id = item.product_id)).getD default)
    let total_price := p.selling_price * item.quantity
    let line_profit := (p.selling_price - p.manufacturing_cost) * item.quantity
    let saleId := "sale-" ++ toString lines.length
    let st1 : Store :=
      { st with sales := st.sales ++ [⟨saleId, item.product_id, item.quantity,
          total_price, line_profit⟩] }
    let st2 : Store :=
      { st1 with products := st1.products.map (fun pr =>
          if pr.id = item.product_id then
            { pr with sell_count := pr.sell_count + item.quantity }
          else pr) }
    (st2, lines ++ [⟨saleId, item.product_id, p.name, item.quantity, total_price,
        line_profit⟩], bill + total_price, profit + line_profit, n + item.quantity))
    (s, [], 0, 0, 0)

/-- One conditional decrement
`UPDATE RawMaterials SET quantity_available = quantity_available - ?
WHERE id = ? AND quantity_available >= ?`, the rows it affects counted as
`changes`; `changes !== 1` throws after the update ran (the transaction
then rolls the update back). The error carries the post-update state so
the rollback in `executeCheckout` is explicit. -/
def decrementStep (st : Store) (e : String × ℚ) : Except Store Store :=
  if (st.rawMaterials.filter (fun rm =>
      rm.id = e.1 ∧ e.2 ≤ rm.quantity_available)).length = 1 then
    pure { st with rawMaterials := st.rawMaterials.map (fun rm =>
        if rm.id = e.1 ∧ e.2 ≤ rm.quantity_available then
          { rm with quantity_available := rm.quantity_available - e.2 }
        else rm) }
  else
    .error { st with rawMaterials := st.rawMaterials.map (fun rm =>
        if rm.id = e.1 ∧ e.2 ≤ rm.quantity_available then
          { rm with quantity_available := rm.quantity_available - e.2 }
        else rm) }

def applyDecrements (req : List (String × ℚ)) (s : Store) : Except Store Store :=
  req.foldlM decrementStep s

/-- The transaction body of `executeCheckout` on already-parsed items:
resolve products, load ingredient rows, aggregate requirements, collect
shortfalls, insert sales and bump sell counts, then run the conditional
decrements. Errors carry the state the transaction had reached, which
`executeCheckout`'s rollback discards. -/
def checkoutBody (s : Store) (items : List CartItem) :
    Except (CheckoutError × Store) (CheckoutResult × Store) :=
  let pids := items.map (fun it => it.product_id)
  let products := s.products.filter (fun p => pids.contains p.id)
  if items.any (fun it => ¬ products.any (fun p => p.id = it.product_id)) then
    .error (.productNotFound, s)
  else
    let rows := loadIngredientRows s pids
    let req := computeRequired items rows
    let shorts := insufficiencies rows req
    if shorts.isEmpty then
      let ins := insertSales products items s
      match applyDecrements req ins.1 with
      | .ok s2 =>
          .ok (⟨ins.2.1, ins.2.2.1, ins.2.2.2.1, ins.2.2.2.2, ins.2.1.length⟩, s2)
      | .error sMid => .error (.stockChanged, sMid)
    else
      .error (.insufficientStock shorts, s)

/-- `executeCheckout(rawItems)`: parse outside the transaction, then run
the body under `withTransaction` — on success the body's final state is
committed, on any thrown error the store is rolled back to the pre-call
state. Returns the response and the committed store. -/
def executeCheckout (raw : List RawCartItem) (s : Store) :
    Except CheckoutError CheckoutResult × Store :=
  match parseCheckoutItems raw with
  | .error msg => (.error (.validation msg), s)
  | .ok items =>
      match checkoutBody s items with
      | .ok (r, s') => (.ok r, s')
      | .error (e, _) => (.error e, s)

/-- JavaScript `v || d` for string-valued route fields: a missing or empty
string falls back to the existing value. -/
def strOr (v : Option String) (d : String) : String :=
  match v with
  | some x => if x = "" then d else x
  | none => d

/-- The request body of the raw-material routes; `none` models an absent
field (`undefined`). -/
structure RawMaterialInput where
  name : Option String
  quantity_available : Option ℚ
  unit : Option String
  cost_per_unit : Option ℚ
  low_stock_threshold : Option ℚ
deriving DecidableEq, Repr

/-- POST /api/raw-materials: reject when name or unit is falsy or
quantity/cost is undefined, otherwise insert the row as parsed, with
low_stock_threshold defaulting to 10. `none` models the 400 rejection. -/
def createRawMaterial (s : Store) (id : String) (b : RawMaterialInput) : Option Store :=
  match b.name, b.quantity_available, b.unit, b.cost_per_unit with
  | some name, some qty, some u, some cost =>
      if name = "" ∨ u = "" then none
      else
        some { s with rawMaterials := s.rawMaterials ++
          [⟨id, name, qty, u, cost, b.low_stock_threshold.getD 10⟩] }
  | _, _, _, _ => none

/-- PUT /api/raw-materials/:id: 404 (`none`) when the id does not resolve;
otherwise overwrite the row with `field !== undefined ? parseFloat(field)
: existing.field` (strings use `field || existing.field`). -/
def updateRawMaterial (s : Store) (id : String) (b : RawMaterialInput) : Option Store :=
  match s.rawMaterials.find? (fun rm => rm.id = id) with
  | none => none
  | some existing =>
      some { s with rawMaterials := s.rawMaterials.map (fun rm =>
        if rm.id = id then
          { rm with
            name := strOr b.name existing.name,
            quantity_available := b.quantity_available.getD existing.quantity_available,
            unit := strOr b.unit existing.unit,
            cost_per_unit := b.cost_per_unit.getD existing.cost_per_unit,
            low_stock_threshold := b.low_stock_threshold.getD existing.low_stock_threshold }
        else rm) }

/-- One entry of the parsed `ingredients` payload of the product routes. -/
structure IngredientInput where
  raw_material_id : Option String
  quantity_used : Option ℚ
deriving DecidableEq, Repr

/-- One pass of the `for (const item of ingredients)` loop of
`setProductIngredients`: validate the entry, reject duplicates, resolve
the raw material, insert the row and accumulate `manufacturingCost +=
quantity_used * cost_per_unit`. The accumulator carries
(store, seen material ids, cost). -/
def ingredientStep (pid : String) (acc : Store × List String × ℚ) (ing : IngredientInput) :
    Except String (Store × List String × ℚ) :=
  match ing.raw_material_id with
  | none => .error ("Each ingredient must include raw_material_id.")
  | some rmid =>
      if rmid = "" then .error ("Each ingredient must include raw_material_id.")
      else
        match ing.quantity_used with
        | none => .error ("Each ingredient quantity_used must be greater than 0.")
        | some q =>
            if q ≤ 0 then
              .error ("Each ingredient quantity_used must be greater than 0.")
            else if acc.2.1.contains rmid then
              .error ("Duplicate raw material in ingredients.")
            else
              match findMaterial acc.1 rmid with
              | none => .error ("One or more ingredients reference invalid raw materials.")
              | some rm =>
                  .ok ({ acc.1 with ingredients := acc.1.ingredients ++ [⟨pid, rmid, q⟩] },
                    acc.2.1 ++ [rmid], acc.2.2 + q * rm.cost_per_unit)

/-- `setProductIngredients(q, productId, ingredients)`: delete the
product's ingredient rows, and when the payload is non-empty validate and
insert each entry while accumulating the manufacturing cost. Runs inside
the caller's transaction, so a thrown error discards the returned
state. -/
def setProductIngredients (s : Store) (pid : String) (ings : List IngredientInput) :
    Except String (Store × ℚ) :=
  let s0 : Store := { s with ingredients := s.ingredients.filter (fun r => r.product_id ≠ pid) }
  if ings.isEmpty then .ok (s0, 0)
  else do
    let acc ← ings.foldlM (ingredientStep pid) (s0, ([] : List String), (0 : ℚ))
    .ok (acc.1, acc.2.2)

/-- The request body of PUT /api/products/:id; `ingredients = none` means
the field was absent from the body. -/
structure ProductPatch where
  name : Option String
  manufacturing_cost : Option ℚ
  selling_price : Option ℚ
  ingredients : Option (List IngredientInput)
deriving DecidableEq, Repr

/-- PUT /api/products/:id: 404 (`none`) when the id does not resolve.
Inside a transaction: when `ingredients` is present the ingredient set is
rewritten and `nextManufacturingCost` is its recomputed cost, otherwise
the body's `manufacturing_cost` (or the existing value) is used; then the
Products row is updated. A thrown validation error rolls the transaction
back, so the error case carries no store. -/
def putProduct (s : Store) (pid : String) (b : ProductPatch) : Option (Except String Store) :=
  match s.products.find? (fun p => p.id = pid) with
  | none => none
  | some existing =>
      some (
        match (match b.ingredients with
               | some ings => setProductIngredients s pid ings
               | none => .ok (s, b.manufacturing_cost.getD existing.manufacturing_cost)) with
        | .error msg => .error msg
        | .ok (s1, nextMC) =>
            .ok { s1 with products := s1.products.map (fun p =>
              if p.id = pid then
                { p with
                  name := strOr b.name existing.name,
                  manufacturing_cost := nextMC,
                  selling_price := b.selling_price.getD existing.selling_price }
              else p) })

/-- DELETE /api/products/:id (`DELETE FROM Products WHERE id = ?`) with
the schema's referential actions applied: `ProductIngredients.product_id`
and `Sales.product_id` both reference Products(id) ON DELETE CASCADE. -/
def deleteProduct (s : Store) (pid : String) : Store :=
  { s with
    products := s.products.filter (fun p => p.id ≠ pid),
    ingredients := s.ingredients.filter (fun r => r.product_id ≠ pid),
    sales := s.sales.filter (fun sa => sa.product_id ≠ pid) }

/-- The GET /api/sales/summary aggregates. -/
structure SalesSummary where
  total_transactions : Nat
  total_items_sold : ℚ
  total_revenue : ℚ
  total_profit : ℚ
deriving DecidableEq, Repr

/-- GET /api/sales/summary: COUNT(*), SUM(quantity), SUM(total_price),
SUM(total_profit) over Sales. -/
def salesSummary (s : Store) : SalesSummary :=
  ⟨s.sales.length,
   (s.sales.map (fun x => x.quantity)).sum,
   (s.sales.map (fun x => x.total_price)).sum,
   (s.sales.map (fun x => x.total_profit)).sum⟩

/-- The aggregated requirement the checkout computes for one raw material
(0 when the cart does not touch it). -/
def requiredOf (s : Store) (items : List CartItem) (mid : String) : ℚ :=
  lookupQ (computeRequired items (loadIngredientRows s (items.map (fun it => it.product_id)))) mid

/-- The number of distinct products referenced by the raw cart. -/
def distinctProductCount (raw : List RawCartItem) : Nat :=
  ((raw.filterMap (fun it => it.product_id)).dedup).length

/-- The shortfall list as the spec words it: one descriptor per aggregated
requirement that strictly exceeds the store's available quantity, fields
read directly from the RawMaterials row. Listed in requirement order. -/
def specShortfalls (s : Store) (items : List CartItem) : List Shortfall :=
  (computeRequired items (loadIngredientRows s (items.map (fun it => it.product_id)))).filterMap
    (fun e =>
      match findMaterial s e.1 with
      | none => none
      | some rm =>
          if rm.quantity_available < e.2 then
            some ⟨rm.id, rm.name, e.2, rm.quantity_available, rm.unit⟩
          else none)

/-! ### Association-list lemmas -/

theorem lookupQ_eq_zero_of_not_mem (l : List (String × ℚ)) (k : String)
    (h : k ∉ l.map Prod.fst) : lookupQ l k = 0 := by
  induction l with
  | nil => rfl
  | cons p t ih =>
      have hp : ¬ p.1 = k := fun hc => h (by simp [hc])
      simp only [lookupQ, hp, if_false]
      exact ih (fun hc => h (by simp [hc]))

theorem lookupQ_append (l₁ l₂ : List (String × ℚ)) (k : String) :
    lookupQ (l₁ ++ l₂) k =
      if k ∈ l₁.map Prod.fst then lookupQ l₁ k else lookupQ l₂ k := by
  induction l₁ with
  | nil => simp [lookupQ]
  | cons p t ih =>
      by_cases hp : p.1 = k
      · simp [lookupQ, hp]
      · have hiff : (k ∈ ((p :: t).map Prod.fst)) ↔ k ∈ t.map Prod.fst := by
          constructor
          · intro hc
            rcases List.mem_map.mp hc with ⟨x, hx, hxk⟩
            rcases List.mem_cons.mp hx with hx | hx
            · exact absurd (hx ▸ hxk) hp
            · exact List.mem_map.mpr ⟨x, hx, hxk⟩
          · intro hc
            rcases List.mem_map.mp hc with ⟨x, hx, hxk⟩
            exact List.mem_map.mpr ⟨x, List.mem_cons_of_mem p hx, hxk⟩
        by_cases hm : k ∈ t.map Prod.fst
        · have ih' : lookupQ (t ++ l₂) k = lookupQ t k := by rw [ih, if_pos hm]
          have hmem : k ∈ (p :: t).map Prod.fst := hiff.mpr hm
          simp only [List.cons_append, lookupQ, hp, if_false, hmem, if_true]
          exact ih'
        · have hnm : k ∉ (p :: t).map Prod.fst := fun hc => hm (hiff.mp hc)
          have ih' : lookupQ (t ++ l₂) k = lookupQ l₂ k := by rw [ih, if_neg hm]
          simp only [List.cons_append, lookupQ, hp, if_false, hnm, if_false]
          exact ih'

theorem lookupQ_map_bump_ne (l : List (String × ℚ)) (k k' : String) (q : ℚ)
    (h : k' ≠ k) :
    lookupQ (l.map (fun x => if x.1 = k then (x.1, x.2 + q) else x)) k' = lookupQ l k' := by
  induction l with
  | nil => rfl
  | cons p t ih =>
      obtain ⟨a, b⟩ := p
      by_cases hp : a = k
      · have hkk' : ¬ k = k' := fun hc => h hc.symm
        simp [lookupQ, hp, hkk', ih]
      · by_cases hp' : a = k'
        · simp [lookupQ, hp, hp', h]
        · simp [lookupQ, hp, hp', ih]

theorem lookupQ_map_bump_eq (l : List (String × ℚ)) (k : String) (q : ℚ)
    (h : k ∈ l.map Prod.fst) :
    lookupQ (l.map (fun x => if x.1 = k then (x.1, x.2 + q) else x)) k =
      lookupQ l k + q := by
  induction l with
  | nil => simp at h
  | cons p t ih =>
      obtain ⟨a, b⟩ := p
      by_cases hp : a = k
      · simp [lookupQ, hp]
      · have hm : k ∈ t.map Prod.fst := by
          rcases List.mem_map.mp h with ⟨x, hx, hxk⟩
          rcases List.mem_cons.mp hx with hx | hx
          · exact absurd (by rw [hx] at hxk; exact hxk) hp
          · exact List.mem_map.mpr ⟨x, hx, hxk⟩
        simp [lookupQ, hp, ih hm]

theorem bumpAssoc_lookupQ (l : List (String × ℚ)) (k k' : String) (q : ℚ) :
    lookupQ (bumpAssoc l k q) k' = lookupQ l k' + (if k' = k then q else 0) := by
  by_cases hany : l.any (fun p => p.1 = k) = true
  · have hmem : k ∈ l.map Prod.fst := by
      rcases List.any_eq_true.mp hany with ⟨p, hp, hpk⟩
      exact List.mem_map.mpr ⟨p, hp, of_decide_eq_true hpk⟩
    rw [bumpAssoc, if_pos hany]
    by_cases hk : k' = k
    · subst hk; simp [lookupQ_map_bump_eq l k' q hmem]
    · simp [lookupQ_map_bump_ne l k k' q hk, hk]
  · have hmem : k ∉ l.map Prod.fst := by
      intro hc
      rcases List.mem_map.mp hc with ⟨p, hp, hpk⟩
      exact hany (List.any_eq_true.mpr ⟨p, hp, by simp [hpk]⟩)
    rw [bumpAssoc, if_neg hany, lookupQ_append]
    by_cases hk : k' = k
    · subst hk
      simp [hmem, lookupQ_eq_zero_of_not_mem l k' hmem, lookupQ]
    · by_cases hm' : k' ∈ l.map Prod.fst
      · simp [hm', hk]
      · simp only [hm', if_false, lookupQ_eq_zero_of_not_mem l k' hm', lookupQ, hk,
          zero_add]
        rw [if_neg (fun hc => hk hc.symm)]

theorem bumpAssoc_keys (l : List (String × ℚ)) (k : String) (q : ℚ) :
    (bumpAssoc l k q).map Prod.fst =
      if k ∈ l.map Prod.fst then l.map Prod.fst else l.map Prod.fst ++ [k] := by
  by_cases h : l.any (fun p => p.1 = k) = true
  · have hmem : k ∈ l.map Prod.fst := by
      rcases List.any_eq_true.mp h with ⟨p, hp, hpk⟩
      exact List.mem_map.mpr ⟨p, hp, by exact of_decide_eq_true hpk⟩
    simp only [bumpAssoc, h, if_true, hmem, List.map_map]
    congr 1
    funext p
    by_cases hpk : p.1 = k <;> simp [hpk]
  · have hmem : k ∉ l.map Prod.fst := by
      intro hc
      rcases List.mem_map.mp hc with ⟨p, hp, hpk⟩
      have hne : l.any (fun p => p.1 = k) = true :=
        List.any_eq_true.mpr ⟨p, hp, by simp [hpk]⟩
      exact h hne
    simp [bumpAssoc, h, hmem]

theorem bumpAssoc_keys_nodup (l : List (String × ℚ)) (k : String) (q : ℚ)
    (h : (l.map Prod.fst).Nodup) : ((bumpAssoc l k q).map Prod.fst).Nodup := by
  rw [bumpAssoc_keys]
  by_cases hmem : k ∈ l.map Prod.fst
  · simpa [hmem] using h
  · simp only [hmem, if_false]
    exact List.Nodup.append h (List.nodup_singleton k) (by
      intro a ha hb
      simp at hb
      subst hb
      exact hmem ha)

theorem bumpAssoc_mem_keys (l : List (String × ℚ)) (k k' : String) (q : ℚ) :
    k' ∈ (bumpAssoc l k q).map Prod.fst ↔ k' ∈ l.map Prod.fst ∨ k' = k := by
  rw [bumpAssoc_keys]
  by_cases hmem : k ∈ l.map Prod.fst
  · simp only [hmem, if_true]
    constructor
    · exact fun h => Or.inl h
    · rintro (h | h)
      · exact h
      · exact h ▸ hmem
  · simp [hmem]

/-- Any error return of `executeCheckout` carries the pre-call store: the
rollback of `withTransaction` discards whatever state the body reached. -/
theorem executeCheckout_error_snd (raw : List RawCartItem) (s : Store)
    (e : CheckoutError) (s' : Store)
    (h : executeCheckout raw s = (.error e, s')) : s' = s := by
  unfold executeCheckout at h
  split at h
  · injection h with h1 h2
    exact h2.symm
  · split at h
    · simp at h
    · injection h with h1 h2
      exact h2.symm

/-- C2: on every failure outcome of `executeCheckout` — validation error,
product not found, insufficient stock, or stock changed during checkout —
the post-call store equals the pre-call store: no Sale row is created, no
quantity_available changes and no sell_count changes. -/
theorem checkout_failure_preserves_state (raw : List RawCartItem) (s : Store)
    (e : CheckoutError) (s' : Store)
    (h : executeCheckout raw s = (.error e, s')) :
    s' = s ∧ s'.sales = s.sales ∧ s'.rawMaterials = s.rawMaterials ∧
      s'.products = s.products := by
  have hs : s' = s := executeCheckout_error_snd raw s e s' h
  exact ⟨hs, by rw [hs], by rw [hs], by rw [hs]⟩

/-- Witness for C2: the empty cart fails and the returned store is the
pre-call store. -/
theorem checkout_failure_preserves_state_witness :
    executeCheckout [] (Store.mk [] [] [] []) =
      (.error (.validation ("At least one cart item is required.")), Store.mk [] [] [] []) ∧
    (Store.mk [] [] [] [] : Store) = Store.mk [] [] [] [] :=
  ⟨rfl, (checkout_failure_preserves_state [] (Store.mk [] [] [] [])
    (.validation ("At least one cart item is required.")) (Store.mk [] [] [] []) rfl).1⟩

/-! ### Requirement aggregation -/

theorem filter_product_and_material (rows : List JoinedIngredient) (pid mid : String) :
    rows.filter (fun r => r.product_id = pid ∧ r.raw_material_id = mid) =
      (rows.filter (fun r => r.product_id = pid)).filter
        (fun r => r.raw_material_id = mid) := by
  induction rows with
  | nil => rfl
  | cons r t ih =>
      rw [List.filter_cons, List.filter_cons]
      by_cases h1 : r.product_id = pid
      · by_cases h2 : r.raw_material_id = mid
        · rw [if_pos (by simp [h1, h2]), if_pos (by simp [h1]), List.filter_cons,
            if_pos (by simp [h2]), ih]
        · rw [if_neg (by simp [h1, h2]), if_pos (by simp [h1]), List.filter_cons,
            if_neg (by simp [h2]), ih]
      · by_cases h2 : r.raw_material_id = mid
        · rw [if_neg (by simp [h1]), if_neg (by simp [h1]), ih]
        · rw [if_neg (by simp [h1]), if_neg (by simp [h1]), ih]

theorem lookupQ_foldl_bump (rs : List JoinedIngredient) (acc : List (String × ℚ))
    (qty : ℚ) (mid : String) :
    lookupQ (rs.foldl
        (fun a r => bumpAssoc a r.raw_material_id (r.quantity_used * qty)) acc) mid =
      lookupQ acc mid +
        ((rs.filter (fun r => r.raw_material_id = mid)).map
          (fun r => r.quantity_used)).sum * qty := by
  induction rs generalizing acc with
  | nil => simp
  | cons r t ih =>
      rw [List.foldl_cons, ih, bumpAssoc_lookupQ]
      by_cases h : r.raw_material_id = mid
      · rw [if_pos h.symm]
        have hf : (r :: t).filter (fun r => r.raw_material_id = mid) =
            r :: t.filter (fun r => r.raw_material_id = mid) := by
          simp [List.filter_cons, h]
        rw [hf, List.map_cons, List.sum_cons]
        ring
      · rw [if_neg (fun hc => h hc.symm)]
        have hf : (r :: t).filter (fun r => r.raw_material_id = mid) =
            t.filter (fun r => r.raw_material_id = mid) := by
          simp [List.filter_cons, h]
        rw [hf]
        ring

theorem lookupQ_computeRequired_aux (items : List CartItem)
    (rows : List JoinedIngredient) (acc : List (String × ℚ)) (mid : String) :
    lookupQ (items.foldl (fun acc item =>
        (rows.filter (fun r => r.product_id = item.product_id)).foldl
          (fun acc2 ing =>
            bumpAssoc acc2 ing.raw_material_id (ing.quantity_used * item.quantity))
          acc) acc) mid =
      lookupQ acc mid +
        (items.map (fun it =>
          ((rows.filter (fun r =>
              r.product_id = it.product_id ∧ r.raw_material_id = mid)).map
            (fun r => r.quantity_used)).sum * it.quantity)).sum := by
  induction items generalizing acc with
  | nil => simp
  | cons it t ih =>
      rw [List.foldl_cons, ih, lookupQ_foldl_bump]
      simp only [List.map_cons, List.sum_cons, filter_product_and_material]
      ring

/-- C3: for every (coalesced) cart, the checkout's aggregated requirement
for each raw material equals the sum over cart lines of
`line.quantity × ingredient.quantity_used` over that line's product's
ingredient rows for the material, summed across every product that uses
the material. -/
theorem checkout_required_aggregation (items : List CartItem)
    (rows : List JoinedIngredient) (mid : String) :
    lookupQ (computeRequired items rows) mid =
      (items.map (fun it =>
        ((rows.filter (fun r =>
            r.product_id = it.product_id ∧ r.raw_material_id = mid)).map
          (fun r => r.quantity_used)).sum * it.quantity)).sum := by
  unfold computeRequired
  rw [lookupQ_computeRequired_aux]
  simp [lookupQ]

/-! ### Validation behaviour of `parseCheckoutItems` -/

/-- The pure coalescing fold underlying `parseCheckoutItems` when every
line is valid. -/
def coalesceFold : List RawCartItem → List (String × ℚ) → List (String × ℚ)
  | [], acc => acc
  | it :: t, acc =>
      match it.product_id, it.quantity with
      | some pid, some q =>
          if pid ≠ "" ∧ 0 < q then coalesceFold t (bumpAssoc acc pid q)
          else coalesceFold t acc
      | _, _ => coalesceFold t acc

/-- The per-line step of `parseCheckoutItems`'s fold, named for proofs. -/
def parseStep (acc : List (String × ℚ)) (it : RawCartItem) :
    Except String (List (String × ℚ)) :=
  match it.product_id, it.quantity with
  | some pid, some q =>
      if pid ≠ "" ∧ 0 < q then
        pure (bumpAssoc acc pid q)
      else
        .error ("Each cart item must include product_id and quantity > 0.")
  | _, _ => .error ("Each cart item must include product_id and quantity > 0.")

theorem parseCheckoutItems_eq (raw : List RawCartItem) :
    parseCheckoutItems raw =
      if raw.isEmpty then .error ("At least one cart item is required.")
      else (raw.foldlM parseStep []).bind
        (fun pairs => .ok (pairs.map (fun p => (⟨p.1, p.2⟩ : CartItem)))) := rfl

theorem parse_fold_ok (raw : List RawCartItem) (acc : List (String × ℚ))
    (h : ∀ it ∈ raw, validLine it) :
    raw.foldlM parseStep acc = .ok (coalesceFold raw acc) := by
  induction raw generalizing acc with
  | nil => rfl
  | cons it t ih =>
      obtain ⟨pid, q, hp, hne, hq, hpos⟩ := h it (List.mem_cons_self it t)
      have ht : ∀ x ∈ t, validLine x := fun x hx => h x (List.mem_cons_of_mem it hx)
      rw [List.foldlM_cons]
      have hstep : parseStep acc it = pure (bumpAssoc acc pid q) := by
        simp [parseStep, hp, hq, hne, hpos]
      rw [hstep]
      have hfold : coalesceFold (it :: t) acc = coalesceFold t (bumpAssoc acc pid q) := by
        simp [coalesceFold, hp, hq, hne, hpos]
      rw [hfold]
      simpa using ih (bumpAssoc acc pid q) ht

theorem parse_fold_error (raw : List RawCartItem) (acc : List (String × ℚ))
    (h : ∃ it ∈ raw, ¬ validLine it) :
    raw.foldlM parseStep acc =
      .error ("Each cart item must include product_id and quantity > 0.") := by
  induction raw generalizing acc with
  | nil => simp at h
  | cons it t ih =>
      rw [List.foldlM_cons]
      by_cases hv : validLine it
      · obtain ⟨pid, q, hp, hne, hq, hpos⟩ := hv
        have ht : ∃ x ∈ t, ¬ validLine x := by
          rcases h with ⟨x, hx, hnx⟩
          rcases List.mem_cons.mp hx with hx | hx
          · exact absurd (show validLine x from hx ▸ ⟨pid, q, hp, hne, hq, hpos⟩) hnx
          · exact ⟨x, hx, hnx⟩
        have hstep : parseStep acc it = pure (bumpAssoc acc pid q) := by
          simp [parseStep, hp, hq, hne, hpos]
        rw [hstep]
        simpa using ih (bumpAssoc acc pid q) ht
      · have hstep : parseStep acc it =
            .error ("Each cart item must include product_id and quantity > 0.") := by
          unfold parseStep
          cases hp : it.product_id with
          | none => rfl
          | some pid =>
              cases hq : it.quantity with
              | none => rfl
              | some q =>
                  have hbad : ¬ (pid ≠ "" ∧ 0 < q) := by
                    intro hand
                    exact hv ⟨pid, q, hp, hand.1, hq, hand.2⟩
                  simp [hbad]
        rw [hstep]
        rfl

theorem parseCheckoutItems_error_char (raw : List RawCartItem)
    (h : raw = [] ∨ ∃ it ∈ raw, ¬ validLine it) :
    ∃ msg, parseCheckoutItems raw = .error msg := by
  rcases h with h | h
  · exact ⟨"At least one cart item is required.", by rw [h]; rfl⟩
  · refine ⟨"Each cart item must include product_id and quantity > 0.", ?_⟩
    have hne : ¬ raw.isEmpty = true := by
      rcases h with ⟨it, hit, _⟩
      cases raw with
      | nil => simp at hit
      | cons a t => simp [List.isEmpty]
    rw [parseCheckoutItems_eq, if_neg hne, parse_fold_error raw [] h]
    rfl

theorem parseCheckoutItems_ok_char (raw : List RawCartItem)
    (hne : raw ≠ []) (h : ∀ it ∈ raw, validLine it) :
    parseCheckoutItems raw =
      .ok ((coalesceFold raw []).map (fun p => (⟨p.1, p.2⟩ : CartItem))) := by
  have hne' : ¬ raw.isEmpty = true := by
    cases raw with
    | nil => exact absurd rfl hne
    | cons a t => simp [List.isEmpty]
  rw [parseCheckoutItems_eq, if_neg hne', parse_fold_ok raw [] h]
  rfl

/-- `checkoutBody` never throws a validation error: validation happens in
`parseCheckoutItems`, before the transaction opens. -/
theorem checkoutBody_not_validation (s : Store) (items : List CartItem)
    (msg : String) (st : Store) :
    checkoutBody s items ≠ .error (.validation msg, st) := by
  intro h
  simp only [checkoutBody] at h
  split at h
  · simp at h
  · split at h
    · split at h
      · simp at h
      · simp at h
    · simp at h

/-- If the first component of `executeCheckout` is an error, the call
equals that error paired with the pre-call store. -/
theorem executeCheckout_fst_error (raw : List RawCartItem) (s : Store)
    (e : CheckoutError) (h : (executeCheckout raw s).1 = .error e) :
    executeCheckout raw s = (.error e, s) := by
  have hpair : executeCheckout raw s =
      ((executeCheckout raw s).1, (executeCheckout raw s).2) := rfl
  rw [h] at hpair
  have hsnd := executeCheckout_error_snd raw s e (executeCheckout raw s).2 hpair
  rw [hpair, hsnd]

/-- C5 (amended): checkout raises a validation error — before opening any
transaction, mutating nothing — exactly when the cart is empty or some
line lacks a truthy product_id or has a quantity that is not a finite
number strictly greater than zero; every accepted line carries a positive
quantity, but integrality is NOT enforced (see the counterexample). -/
theorem checkout_validation_amended (raw : List RawCartItem) (s : Store) :
    ((∃ msg, (executeCheckout raw s).1 = .error (.validation msg)) ↔
      (raw = [] ∨ ∃ it ∈ raw, ¬ validLine it)) ∧
    (∀ msg, (executeCheckout raw s).1 = .error (.validation msg) →
      (executeCheckout raw s).2 = s) ∧
    (∀ items, parseCheckoutItems raw = .ok items → ∀ it ∈ raw, validLine it) := by
  refine ⟨⟨?_, ?_⟩, ?_, ?_⟩
  · rintro ⟨msg, hmsg⟩
    by_contra hcon
    push_neg at hcon
    obtain ⟨hraw, hall⟩ := hcon
    have hvalid : ∀ it ∈ raw, validLine it := fun it hit => by
      by_contra hv
      exact absurd hv (by simpa using hall it hit)
    have hok := parseCheckoutItems_ok_char raw hraw hvalid
    have hrun : executeCheckout raw s =
        (match checkoutBody s
            ((coalesceFold raw []).map (fun p => (⟨p.1, p.2⟩ : CartItem))) with
          | .ok (r, s') => (.ok r, s')
          | .error (e, _) => (.error e, s)) := by
      unfold executeCheckout
      rw [hok]
    rcases hb : checkoutBody s
        ((coalesceFold raw []).map (fun p => (⟨p.1, p.2⟩ : CartItem))) with v | v
    · rw [hrun, hb] at hmsg
      obtain ⟨e0, st0⟩ := v
      simp at hmsg
      rw [hmsg] at hb
      exact checkoutBody_not_validation s _ msg st0 hb
    · rw [hrun, hb] at hmsg
      obtain ⟨r0, st0⟩ := v
      simp at hmsg
  · intro h
    obtain ⟨msg, hmsg⟩ := parseCheckoutItems_error_char raw h
    refine ⟨msg, ?_⟩
    unfold executeCheckout
    rw [hmsg]
  · intro msg hmsg
    have := executeCheckout_fst_error raw s (.validation msg) hmsg
    rw [this]
  · intro items hok it hit
    by_contra hbad
    obtain ⟨msg, hmsg⟩ := parseCheckoutItems_error_char raw (Or.inr ⟨it, hit, hbad⟩)
    rw [hok] at hmsg
    cases hmsg

/-- Witness for C5's amended theorem: the empty cart produces a
validation error. -/
theorem checkout_validation_amended_witness :
    ∃ msg, (executeCheckout [] (Store.mk [] [] [] [])).1 = .error (.validation msg) :=
  (checkout_validation_amended [] (Store.mk [] [] [] [])).1.mpr (Or.inl rfl)

/-- Counterexample to C5 as stated: a cart line whose quantity 5/2 is not
an integer passes validation — `parseCheckoutItems` returns it as an
accepted line instead of raising the claimed validation error — because
the code only checks `Number.isFinite(quantity) && quantity > 0`, not
integrality. The non-integer quantity therefore reaches the transaction;
only the Sales.quantity INTEGER column, a storage-layer constraint
outside the validation path, stands between it and the journal. -/
theorem checkout_validation_claim_counterexample :
    parseCheckoutItems [⟨some "p1", some (5/2 : ℚ)⟩] =
      .ok [⟨"p1", (5/2 : ℚ)⟩] ∧
    ((5 : ℚ)/2).den ≠ 1 := by
  constructor
  · simp +decide only [parseCheckoutItems, bumpAssoc, lookupQ, List.foldlM,
      List.isEmpty, List.map, List.any, Except.instMonad, Except.bind, Except.map,
      Except.pure, bind, pure, Functor.map, Bind.bind, Pure.pure]
    norm_num
  · norm_num [Rat.den]

/-! ### Closed form of the sale-insertion loop -/

/-- The product snapshot used for a cart line: `productById.get(...)`. -/
def snapshotProduct (products : List Product) (pid : String) : Product :=
  (products.find? (fun p => p.id = pid)).getD default

/-- The Sales rows inserted for the cart lines, numbered from `n`. -/
def saleRowsFrom (products : List Product) : List CartItem → Nat → List Sale
  | [], _ => []
  | it :: t, n =>
      let p := snapshotProduct products it.product_id
      ⟨"sale-" ++ toString n, it.product_id, it.quantity, p.selling_price * it.quantity,
        (p.selling_price - p.manufacturing_cost) * it.quantity⟩ ::
        saleRowsFrom products t (n + 1)

/-- The `salesCreated` payload entries for the cart lines, numbered from `n`. -/
def saleLinesFrom (products : List Product) : List CartItem → Nat → List SaleLine
  | [], _ => []
  | it :: t, n =>
      let p := snapshotProduct products it.product_id
      ⟨"sale-" ++ toString n, it.product_id, p.name, it.quantity,
        p.selling_price * it.quantity,
        (p.selling_price - p.manufacturing_cost) * it.quantity⟩ ::
        saleLinesFrom products t (n + 1)

/-- The accumulated `sell_count` updates. -/
def bumpSellCounts (items : List CartItem) (ps : List Product) : List Product :=
  items.foldl (fun ps it => ps.map (fun pr =>
    if pr.id = it.product_id then { pr with sell_count := pr.sell_count + it.quantity }
    else pr)) ps

theorem saleRowsFrom_length (products : List Product) (items : List CartItem) (n : Nat) :
    (saleRowsFrom products items n).length = items.length := by
  induction items generalizing n with
  | nil => rfl
  | cons it t ih => simp [saleRowsFrom, ih]

theorem saleLinesFrom_length (products : List Product) (items : List CartItem) (n : Nat) :
    (saleLinesFrom products items n).length = items.length := by
  induction items generalizing n with
  | nil => rfl
  | cons it t ih => simp [saleLinesFrom, ih]

theorem insertSales_eq (products : List Product) (items : List CartItem) (s : Store) :
    insertSales products items s =
      ({ s with
          products := bumpSellCounts items s.products,
          sales := s.sales ++ saleRowsFrom products items 0 },
        saleLinesFrom products items 0,
        ((items.map (fun it =>
          (snapshotProduct products it.product_id).selling_price * it.quantity)).sum),
        ((items.map (fun it =>
          ((snapshotProduct products it.product_id).selling_price -
            (snapshotProduct products it.product_id).manufacturing_cost) * it.quantity)).sum),
        ((items.map (fun it => it.quantity)).sum)) := by
  have aux : ∀ (items : List CartItem) (st : Store) (lines : List SaleLine)
      (bill profit n : ℚ),
      items.foldl (fun acc item =>
        let st := acc.1
        let lines := acc.2.1
        let bill := acc.2.2.1
        let profit := acc.2.2.2.1
        let n := acc.2.2.2.2
        let p := ((products.find? (fun p => p.id = item.product_id)).getD default)
        let total_price := p.selling_price * item.quantity
        let line_profit := (p.selling_price - p.manufacturing_cost) * item.quantity
        let saleId := "sale-" ++ toString lines.length
        let st1 : Store :=
          { st with sales := st.sales ++ [⟨saleId, item.product_id, item.quantity,
              total_price, line_profit⟩] }
        let st2 : Store :=
          { st1 with products := st1.products.map (fun pr =>
              if pr.id = item.product_id then
                { pr with sell_count := pr.sell_count + item.quantity }
              else pr) }
        (st2, lines ++ [⟨saleId, item.product_id, p.name, item.quantity, total_price,
            line_profit⟩], bill + total_price, profit + line_profit, n + item.quantity))
        (st, lines, bill, profit, n) =
      ({ st with
          products := bumpSellCounts items st.products,
          sales := st.sales ++ saleRowsFrom products items lines.length },
        lines ++ saleLinesFrom products items lines.length,
        bill + ((items.map (fun it =>
          (snapshotProduct products it.product_id).selling_price * it.quantity)).sum),
        profit + ((items.map (fun it =>
          ((snapshotProduct products it.product_id).selling_price -
            (snapshotProduct products it.product_id).manufacturing_cost) * it.quantity)).sum),
        n + ((items.map (fun it => it.quantity)).sum)) := by
    intro items
    induction items with
    | nil =>
        intro st lines bill profit n
        simp [bumpSellCounts, saleRowsFrom, saleLinesFrom]
    | cons it t ih =>
        intro st lines bill profit n
        rw [List.foldl_cons]
        rw [ih]
        simp only [saleRowsFrom, saleLinesFrom, bumpSellCounts, List.foldl_cons,
          List.map_cons, List.sum_cons, List.length_append, List.length_cons,
          List.length_nil, snapshotProduct]
        refine congrArg₂ Prod.mk ?_ (congrArg₂ Prod.mk ?_ (congrArg₂ Prod.mk ?_
          (congrArg₂ Prod.mk ?_ ?_)))
        · simp [List.append_assoc]
        · simp [List.append_assoc]
        · ring
        · ring
        · ring
  have h := aux items s [] 0 0 0
  unfold insertSales
  rw [h]
  simp

/-! ### The conditional-decrement loop -/

theorem filter_id_cond_singleton (l : List RawMaterial) (mid : String) (q : ℚ)
    (hnd : (l.map (fun rm => rm.id)).Nodup) (rm0 : RawMaterial) (h0 : rm0 ∈ l)
    (hid : rm0.id = mid) (hq : q ≤ rm0.quantity_available) :
    l.filter (fun rm => rm.id = mid ∧ q ≤ rm.quantity_available) = [rm0] := by
  induction l with
  | nil => simp at h0
  | cons a t ih =>
      rcases List.mem_cons.mp h0 with h0 | h0
      · subst h0
        have hnone : ∀ rm ∈ t, rm.id ≠ mid := by
          intro rm hrm hc
          have : rm0.id ∈ t.map (fun rm => rm.id) :=
            List.mem_map.mpr ⟨rm, hrm, by rw [hc, hid]⟩
          exact (List.nodup_cons.mp hnd).1 this
        have htail : t.filter (fun rm => rm.id = mid ∧ q ≤ rm.quantity_available) = [] := by
          rw [List.filter_eq_nil_iff]
          intro rm hrm
          simp only [decide_eq_true_eq, not_and]
          intro hc
          exact absurd hc (hnone rm hrm)
        rw [List.filter_cons, if_pos (by simp [hid, hq]), htail]
      · have hane : a.id ≠ mid := by
          intro hc
          have : rm0.id ∈ t.map (fun rm => rm.id) :=
            List.mem_map.mpr ⟨rm0, h0, rfl⟩
          rw [hid, ← hc] at this
          exact (List.nodup_cons.mp hnd).1 this
        rw [List.filter_cons, if_neg (by simp [hane])]
        exact ih (List.nodup_cons.mp hnd).2 h0

theorem eq_of_mem_nodup_ids (l : List RawMaterial)
    (hnd : (l.map (fun rm => rm.id)).Nodup) (a b : RawMaterial)
    (ha : a ∈ l) (hb : b ∈ l) (hab : a.id = b.id) : a = b := by
  induction l with
  | nil => simp at ha
  | cons x t ih =>
      rw [List.map_cons] at hnd
      have hnd2 := List.nodup_cons.mp hnd
      rcases List.mem_cons.mp ha with ha2 | ha2
      · rcases List.mem_cons.mp hb with hb2 | hb2
        · rw [ha2, hb2]
        · exfalso
          apply hnd2.1
          show x.id ∈ t.map (fun rm => rm.id)
          rw [show x.id = b.id from by rw [← ha2]; exact hab]
          exact List.mem_map.mpr ⟨b, hb2, rfl⟩
      · rcases List.mem_cons.mp hb with hb2 | hb2
        · exfalso
          apply hnd2.1
          show x.id ∈ t.map (fun rm => rm.id)
          rw [show x.id = a.id from by rw [← hb2]; exact hab.symm]
          exact List.mem_map.mpr ⟨a, ha2, rfl⟩
        · exact ih hnd2.2 ha2 hb2

theorem applyDecrements_ok (req : List (String × ℚ)) (s : Store)
    (hnd : (s.rawMaterials.map (fun rm => rm.id)).Nodup)
    (hkeys : (req.map Prod.fst).Nodup)
    (hex : ∀ e ∈ req, ∃ rm ∈ s.rawMaterials, rm.id = e.1 ∧ e.2 ≤ rm.quantity_available) :
    applyDecrements req s = .ok
      { s with rawMaterials := s.rawMaterials.map (fun rm =>
          { rm with quantity_available := rm.quantity_available - lookupQ req rm.id }) } := by
  induction req generalizing s with
  | nil =>
      have hmap : s.rawMaterials.map (fun rm =>
          { rm with quantity_available := rm.quantity_available - lookupQ [] rm.id }) =
          s.rawMaterials := by
        rw [show (fun rm : RawMaterial =>
            { rm with quantity_available := rm.quantity_available - lookupQ [] rm.id }) =
            (fun rm => rm) from ?_]
        · exact List.map_id _
        · funext rm
          cases rm
          simp [lookupQ]
      rw [applyDecrements, List.foldlM_nil, hmap]
      rfl
  | cons e t ih =>
      obtain ⟨rm0, hrm0, hid0, hq0⟩ := hex e (List.mem_cons_self e t)
      have hfil := filter_id_cond_singleton s.rawMaterials e.1 e.2 hnd rm0 hrm0 hid0 hq0
      have hchanges : (s.rawMaterials.filter (fun rm =>
          rm.id = e.1 ∧ e.2 ≤ rm.quantity_available)).length = 1 := by
        rw [hfil]; rfl
      set st' : Store := { s with rawMaterials := s.rawMaterials.map (fun rm =>
          if rm.id = e.1 ∧ e.2 ≤ rm.quantity_available then
            { rm with quantity_available := rm.quantity_available - e.2 }
          else rm) } with hst'
      have hdec : decrementStep s e = pure st' := by
        unfold decrementStep
        rw [if_pos hchanges, hst']
      have hstep : applyDecrements (e :: t) s = applyDecrements t st' := by
        rw [applyDecrements, List.foldlM_cons, hdec]
        rfl
      have hids : st'.rawMaterials.map (fun rm => rm.id) =
          s.rawMaterials.map (fun rm => rm.id) := by
        rw [hst']
        simp only [List.map_map]
        refine List.map_congr_left ?_
        intro rm hrm
        by_cases hc : rm.id = e.1 ∧ e.2 ≤ rm.quantity_available <;> simp [hc]
      have hnd' : (st'.rawMaterials.map (fun rm => rm.id)).Nodup := by
        rw [hids]; exact hnd
      have hkeys' : (t.map Prod.fst).Nodup := (List.nodup_cons.mp hkeys).2
      have hnotmem : e.1 ∉ t.map Prod.fst := (List.nodup_cons.mp hkeys).1
      have hex' : ∀ e' ∈ t, ∃ rm ∈ st'.rawMaterials,
          rm.id = e'.1 ∧ e'.2 ≤ rm.quantity_available := by
        intro e' he'
        obtain ⟨rm, hrm, hide, hqe⟩ := hex e' (List.mem_cons_of_mem e he')
        have hne : rm.id ≠ e.1 := by
          intro hc
          apply hnotmem
          rw [← hc, hide]
          exact List.mem_map.mpr ⟨e', he', rfl⟩
        have hfix : (if rm.id = e.1 ∧ e.2 ≤ rm.quantity_available then
            { rm with quantity_available := rm.quantity_available - e.2 }
            else rm) = rm := by
          rw [if_neg (by intro hc; exact hne hc.1)]
        refine ⟨rm, ?_, hide, hqe⟩
        rw [hst']
        exact List.mem_map.mpr ⟨rm, hrm, hfix⟩
      rw [hstep, ih st' hnd' hkeys' hex']
      rw [hst']
      simp only [List.map_map]
      congr 2
      refine List.map_congr_left ?_
      intro rm hrm
      simp only [Function.comp]
      by_cases hc : rm.id = e.1 ∧ e.2 ≤ rm.quantity_available
      · have hz : lookupQ t rm.id = 0 :=
          lookupQ_eq_zero_of_not_mem t rm.id (by rw [hc.1]; exact hnotmem)
        rw [if_pos hc]
        simp only [lookupQ]
        rw [if_pos hc.1.symm, hz]
        simp
      · have hne : rm.id ≠ e.1 := by
          intro hceq
          have hrmeq : rm = rm0 :=
            eq_of_mem_nodup_ids s.rawMaterials hnd rm rm0 hrm hrm0 (by rw [hceq, hid0])
          apply hc
          refine ⟨hceq, ?_⟩
          rw [hrmeq]
          exact hq0
        rw [if_neg hc]
        simp only [lookupQ]
        rw [if_neg (fun hceq => hne hceq.symm)]

/-! ### Facts about the joined rows and the requirement map's keys -/

theorem joined_row_spec (s : Store) (pids : List String) :
    ∀ row ∈ loadIngredientRows s pids, ∃ rm ∈ s.rawMaterials,
      rm.id = row.raw_material_id ∧ row.raw_material_name = rm.name ∧
      row.raw_material_unit = rm.unit ∧ row.quantity_available = rm.quantity_available := by
  intro row hrow
  obtain ⟨pi, hpi, heq⟩ := List.mem_filterMap.mp hrow
  by_cases hcont : pids.contains pi.product_id
  · rw [if_pos hcont] at heq
    obtain ⟨rm, hfind, hmk⟩ := Option.map_eq_some'.mp heq
    have hrmmem : rm ∈ s.rawMaterials := List.mem_of_find?_eq_some hfind
    have hrmid : rm.id = pi.raw_material_id := by
      have := List.find?_some hfind
      exact of_decide_eq_true this
    subst hmk
    exact ⟨rm, hrmmem, hrmid, rfl, rfl, rfl⟩
  · rw [if_neg hcont] at heq
    cases heq

theorem bump_fold_keys_nodup (rs : List JoinedIngredient) (qty : ℚ) :
    ∀ acc : List (String × ℚ), (acc.map Prod.fst).Nodup →
    (((rs.foldl (fun a r => bumpAssoc a r.raw_material_id (r.quantity_used * qty)) acc).map
      Prod.fst)).Nodup := by
  induction rs with
  | nil => intro acc h; exact h
  | cons r t ih =>
      intro acc h
      rw [List.foldl_cons]
      exact ih _ (bumpAssoc_keys_nodup acc r.raw_material_id (r.quantity_used * qty) h)

theorem bump_fold_keys_mem (rs : List JoinedIngredient) (qty : ℚ) :
    ∀ acc : List (String × ℚ), ∀ k,
    k ∈ ((rs.foldl (fun a r => bumpAssoc a r.raw_material_id (r.quantity_used * qty)) acc).map
      Prod.fst) →
    k ∈ acc.map Prod.fst ∨ ∃ r ∈ rs, r.raw_material_id = k := by
  induction rs with
  | nil => intro acc k h; exact Or.inl h
  | cons r t ih =>
      intro acc k h
      rw [List.foldl_cons] at h
      rcases ih _ k h with h' | ⟨r', hr', hk⟩
      · rcases (bumpAssoc_mem_keys acc r.raw_material_id k (r.quantity_used * qty)).mp h' with
          h'' | h''
        · exact Or.inl h''
        · exact Or.inr ⟨r, List.mem_cons_self r t, h''.symm⟩
      · exact Or.inr ⟨r', List.mem_cons_of_mem r hr', hk⟩

theorem computeRequired_keys_nodup (items : List CartItem) (rows : List JoinedIngredient) :
    (((computeRequired items rows).map Prod.fst)).Nodup := by
  suffices h : ∀ acc : List (String × ℚ), (acc.map Prod.fst).Nodup →
      ((items.foldl (fun acc item =>
        (rows.filter (fun r => r.product_id = item.product_id)).foldl
          (fun acc2 ing =>
            bumpAssoc acc2 ing.raw_material_id (ing.quantity_used * item.quantity)) acc)
        acc).map Prod.fst).Nodup by
    exact h [] List.nodup_nil
  induction items with
  | nil => intro acc h; exact h
  | cons it t ih =>
      intro acc h
      rw [List.foldl_cons]
      exact ih _ (bump_fold_keys_nodup _ it.quantity acc h)

theorem computeRequired_keys_mem (items : List CartItem) (rows : List JoinedIngredient) :
    ∀ k ∈ ((computeRequired items rows).map Prod.fst), ∃ r ∈ rows, r.raw_material_id = k := by
  suffices h : ∀ acc : List (String × ℚ), ∀ k,
      k ∈ ((items.foldl (fun acc item =>
        (rows.filter (fun r => r.product_id = item.product_id)).foldl
          (fun acc2 ing =>
            bumpAssoc acc2 ing.raw_material_id (ing.quantity_used * item.quantity)) acc)
        acc).map Prod.fst) →
      k ∈ acc.map Prod.fst ∨ ∃ r ∈ rows, r.raw_material_id = k by
    intro k hk
    rcases h [] k hk with h' | h'
    · simp at h'
    · exact h'
  induction items with
  | nil => intro acc k h; exact Or.inl h
  | cons it t ih =>
      intro acc k h
      rw [List.foldl_cons] at h
      rcases ih _ k h with h' | h'
      · rcases bump_fold_keys_mem _ it.quantity acc k h' with h'' | ⟨r, hr, hk⟩
        · exact Or.inl h''
        · exact Or.inr ⟨r, List.mem_of_mem_filter hr, hk⟩
      · exact Or.inr h'

theorem getLast?_mem_of_ne_nil {α : Type} (l : List α) (h : l ≠ []) :
    ∃ a, l.getLast? = some a ∧ a ∈ l := by
  induction l with
  | nil => exact absurd rfl h
  | cons x t ih =>
      cases ht : t with
      | nil => exact ⟨x, by simp, by simp⟩
      | cons y u =>
          obtain ⟨a, ha, hmem⟩ := ih (by rw [ht]; exact List.cons_ne_nil y u)
          rw [ht] at ha hmem
          refine ⟨a, ?_, List.mem_cons_of_mem x hmem⟩
          rw [List.getLast?_cons_cons]
          exact ha

theorem materialMeta_spec (rows : List JoinedIngredient) (mid : String)
    (h : ∃ r ∈ rows, r.raw_material_id = mid) :
    ∃ m, materialMeta rows mid = some m ∧ m ∈ rows ∧ m.raw_material_id = mid := by
  obtain ⟨r, hr, hrid⟩ := h
  have hmemf : r ∈ rows.filter (fun r => r.raw_material_id = mid) :=
    List.mem_filter.mpr ⟨hr, by simp [hrid]⟩
  have hne : rows.filter (fun r => r.raw_material_id = mid) ≠ [] := by
    intro hc
    rw [hc] at hmemf
    simp at hmemf
  obtain ⟨m, hm, hmmem⟩ := getLast?_mem_of_ne_nil _ hne
  refine ⟨m, hm, List.mem_of_mem_filter hmmem, ?_⟩
  have := (List.mem_filter.mp hmmem).2
  exact of_decide_eq_true this

theorem lookupQ_of_mem_nodup (l : List (String × ℚ)) (e : String × ℚ)
    (hnd : (l.map Prod.fst).Nodup) (he : e ∈ l) : lookupQ l e.1 = e.2 := by
  induction l with
  | nil => simp at he
  | cons p t ih =>
      rw [List.map_cons] at hnd
      have hnd' := List.nodup_cons.mp hnd
      rcases List.mem_cons.mp he with he' | he'
      · rw [he']
        simp [lookupQ]
      · have hne : p.1 ≠ e.1 := by
          intro hc
          apply hnd'.1
          show p.1 ∈ t.map Prod.fst
          rw [hc]
          exact List.mem_map.mpr ⟨e, he', rfl⟩
        simp only [lookupQ, hne, if_false]
        exact ih hnd'.2 he'

/-- With unique material ids and every aggregated requirement within the
available stock, the shortfall list is empty. -/
theorem insufficiencies_nil (s : Store) (items : List CartItem)
    (hsuff : ∀ rm ∈ s.rawMaterials,
      lookupQ (computeRequired items
        (loadIngredientRows s (items.map (fun it => it.product_id)))) rm.id ≤
        rm.quantity_available) :
    insufficiencies (loadIngredientRows s (items.map (fun it => it.product_id)))
      (computeRequired items (loadIngredientRows s (items.map (fun it => it.product_id)))) =
      [] := by
  set rows := loadIngredientRows s (items.map (fun it => it.product_id)) with hrows
  set req := computeRequired items rows with hreq
  rw [insufficiencies, List.filterMap_eq_nil_iff]
  intro e he
  have hkey : e.1 ∈ req.map Prod.fst := List.mem_map.mpr ⟨e, he, rfl⟩
  obtain ⟨r, hr, hrid⟩ := computeRequired_keys_mem items rows e.1 hkey
  obtain ⟨m, hmeta, hmmem, hmid⟩ := materialMeta_spec rows e.1 ⟨r, hr, hrid⟩
  obtain ⟨rm, hrmmem, hrmid, _, _, hqa⟩ := joined_row_spec s _ m hmmem
  have hval : lookupQ req e.1 = e.2 :=
    lookupQ_of_mem_nodup req e (computeRequired_keys_nodup items rows) he
  have hle : e.2 ≤ m.quantity_available := by
    rw [hqa]
    have := hsuff rm hrmmem
    rw [hrmid, hmid] at this
    rw [← hval]
    exact this
  rw [hmeta]
  simp only [Option.some.injEq]
  rw [if_neg (by exact not_lt.mpr hle)]

/-! ### Product snapshot and distinct-count lemmas -/

theorem find?_filter_pid (ps : List Product) (pids : List String) (pid : String)
    (hmem : pid ∈ pids) :
    (ps.filter (fun p => pids.contains p.id)).find? (fun p => p.id = pid) =
      ps.find? (fun p => p.id = pid) := by
  induction ps with
  | nil => rfl
  | cons a t ih =>
      by_cases hp : a.id = pid
      · have hcont : pids.contains a.id = true := by
          rw [hp]
          exact List.elem_eq_true_of_mem hmem
        rw [List.filter_cons, if_pos (by simpa using hcont)]
        rw [List.find?_cons_of_pos _ (by simp [hp]), List.find?_cons_of_pos _ (by simp [hp])]
      · by_cases hcont : pids.contains a.id = true
        · rw [List.filter_cons, if_pos (by simpa using hcont)]
          rw [List.find?_cons_of_neg _ (by simp [hp]), List.find?_cons_of_neg _ (by simp [hp])]
          exact ih
        · rw [List.filter_cons, if_neg (by simpa using hcont)]
          rw [List.find?_cons_of_neg _ (by simp [hp])]
          exact ih

theorem snapshotProduct_filter (s : Store) (items : List CartItem) (it : CartItem)
    (hit : it ∈ items) :
    snapshotProduct (s.products.filter (fun p =>
      (items.map (fun it => it.product_id)).contains p.id)) it.product_id =
      snapshotProduct s.products it.product_id := by
  unfold snapshotProduct
  rw [find?_filter_pid s.products (items.map (fun it => it.product_id)) it.product_id
    (List.mem_map.mpr ⟨it, hit, rfl⟩)]

theorem saleRowsFrom_congr (ps qs : List Product) (items : List CartItem)
    (h : ∀ it ∈ items, snapshotProduct ps it.product_id = snapshotProduct qs it.product_id) :
    ∀ n, saleRowsFrom ps items n = saleRowsFrom qs items n := by
  induction items with
  | nil => intro n; rfl
  | cons it t ih =>
      intro n
      rw [saleRowsFrom, saleRowsFrom, h it (List.mem_cons_self it t),
        ih (fun x hx => h x (List.mem_cons_of_mem it hx)) (n + 1)]

theorem saleLinesFrom_congr (ps qs : List Product) (items : List CartItem)
    (h : ∀ it ∈ items, snapshotProduct ps it.product_id = snapshotProduct qs it.product_id) :
    ∀ n, saleLinesFrom ps items n = saleLinesFrom qs items n := by
  induction items with
  | nil => intro n; rfl
  | cons it t ih =>
      intro n
      rw [saleLinesFrom, saleLinesFrom, h it (List.mem_cons_self it t),
        ih (fun x hx => h x (List.mem_cons_of_mem it hx)) (n + 1)]

theorem find?_map_id_preserving (l : List RawMaterial) (f : RawMaterial → RawMaterial)
    (hf : ∀ rm, (f rm).id = rm.id) (rm : RawMaterial)
    (hnd : (l.map (fun x => x.id)).Nodup) (hmem : rm ∈ l) :
    (l.map f).find? (fun x => x.id = rm.id) = some (f rm) := by
  induction l with
  | nil => simp at hmem
  | cons a t ih =>
      rw [List.map_cons] at hnd
      have hnd' := List.nodup_cons.mp hnd
      rcases List.mem_cons.mp hmem with hmem' | hmem'
      · rw [hmem']
        rw [List.map_cons, List.find?_cons_of_pos _ (by simp [hf])]
      · have hane : a.id ≠ rm.id := by
          intro hc
          apply hnd'.1
          show a.id ∈ t.map (fun x => x.id)
          rw [hc]
          exact List.mem_map.mpr ⟨rm, hmem', rfl⟩
        rw [List.map_cons, List.find?_cons_of_neg _ (by simp [hf, hane])]
        exact ih hnd'.2 hmem'

theorem coalesceFold_keys_nodup (raw : List RawCartItem) :
    ∀ acc : List (String × ℚ), (acc.map Prod.fst).Nodup →
    ((coalesceFold raw acc).map Prod.fst).Nodup := by
  induction raw with
  | nil => intro acc h; exact h
  | cons it t ih =>
      intro acc h
      cases hp : it.product_id with
      | none =>
          have hstep : coalesceFold (it :: t) acc = coalesceFold t acc := by
            simp [coalesceFold, hp]
          rw [hstep]
          exact ih acc h
      | some pid =>
          cases hq : it.quantity with
          | none =>
              have hstep : coalesceFold (it :: t) acc = coalesceFold t acc := by
                simp [coalesceFold, hp, hq]
              rw [hstep]
              exact ih acc h
          | some q =>
              by_cases hc : pid ≠ "" ∧ 0 < q
              · have hstep : coalesceFold (it :: t) acc =
                    coalesceFold t (bumpAssoc acc pid q) := by
                  simp only [coalesceFold, hp, hq]
                  rw [if_pos hc]
                rw [hstep]
                exact ih _ (bumpAssoc_keys_nodup acc pid q h)
              · have hstep : coalesceFold (it :: t) acc = coalesceFold t acc := by
                  simp only [coalesceFold, hp, hq]
                  rw [if_neg hc]
                rw [hstep]
                exact ih acc h

theorem coalesceFold_keys_mem (raw : List RawCartItem) (hvalid : ∀ it ∈ raw, validLine it) :
    ∀ acc : List (String × ℚ), ∀ k,
    k ∈ (coalesceFold raw acc).map Prod.fst ↔
      k ∈ acc.map Prod.fst ∨ k ∈ raw.filterMap (fun it => it.product_id) := by
  induction raw with
  | nil => intro acc k; simp [coalesceFold]
  | cons it t ih =>
      intro acc k
      obtain ⟨pid, q, hp, hne, hq, hpos⟩ := hvalid it (List.mem_cons_self it t)
      have ht : ∀ x ∈ t, validLine x := fun x hx => hvalid x (List.mem_cons_of_mem it hx)
      have hstep : coalesceFold (it :: t) acc = coalesceFold t (bumpAssoc acc pid q) := by
        simp only [coalesceFold, hp, hq]
        rw [if_pos ⟨hne, hpos⟩]
      rw [hstep]
      rw [ih ht (bumpAssoc acc pid q) k]
      have hfm : (it :: t).filterMap (fun it => it.product_id) =
          pid :: t.filterMap (fun it => it.product_id) := by
        simp [List.filterMap_cons, hp]
      rw [hfm]
      constructor
      · rintro (h | h)
        · rcases (bumpAssoc_mem_keys acc pid k q).mp h with h' | h'
          · exact Or.inl h'
          · exact Or.inr (by rw [h']; exact List.mem_cons_self pid _)
        · exact Or.inr (List.mem_cons_of_mem pid h)
      · rintro (h | h)
        · exact Or.inl ((bumpAssoc_mem_keys acc pid k q).mpr (Or.inl h))
        · rcases List.mem_cons.mp h with h' | h'
          · exact Or.inl ((bumpAssoc_mem_keys acc pid k q).mpr (Or.inr h'))
          · exact Or.inr h'

theorem parse_items_length (raw : List RawCartItem) (items : List CartItem)
    (hparse : parseCheckoutItems raw = .ok items) :
    items.length = distinctProductCount raw := by
  have hvalid : ∀ it ∈ raw, validLine it := by
    intro it hit
    by_contra hbad
    obtain ⟨msg, hmsg⟩ := parseCheckoutItems_error_char raw (Or.inr ⟨it, hit, hbad⟩)
    rw [hparse] at hmsg
    cases hmsg
  have hne : raw ≠ [] := by
    intro hc
    obtain ⟨msg, hmsg⟩ := parseCheckoutItems_error_char raw (Or.inl hc)
    rw [hparse] at hmsg
    cases hmsg
  have hitems : items = (coalesceFold raw []).map (fun p => (⟨p.1, p.2⟩ : CartItem)) := by
    have := parseCheckoutItems_ok_char raw hne hvalid
    rw [hparse] at this
    exact (Except.ok.injEq _ _).mp this
  set keys := (coalesceFold raw []).map Prod.fst with hkeys
  have hlen : items.length = keys.length := by
    rw [hitems, hkeys]
    simp
  have hknd : keys.Nodup := coalesceFold_keys_nodup raw [] List.nodup_nil
  have hmemiff : ∀ k, k ∈ keys ↔ k ∈ raw.filterMap (fun it => it.product_id) := by
    intro k
    rw [hkeys, coalesceFold_keys_mem raw hvalid [] k]
    simp
  have htfs : keys.toFinset = (raw.filterMap (fun it => it.product_id)).toFinset := by
    apply Finset.ext
    intro k
    rw [List.mem_toFinset, List.mem_toFinset]
    exact hmemiff k
  rw [hlen, distinctProductCount]
  rw [← List.toFinset_card_of_nodup hknd, htfs]
  exact List.card_toFinset _

/-- Success run of the transaction body: all products resolve and every
aggregated requirement is within stock, so the body commits the sale
rows, sell-count bumps and stock decrements. -/
theorem checkoutBody_ok_spec (s : Store) (items : List CartItem)
    (hndM : (s.rawMaterials.map (fun rm => rm.id)).Nodup)
    (hfound : ∀ it ∈ items, ∃ p ∈ s.products, p.id = it.product_id)
    (hsuff : ∀ rm ∈ s.rawMaterials, requiredOf s items rm.id ≤ rm.quantity_available) :
    checkoutBody s items = .ok
      (⟨saleLinesFrom s.products items 0,
        (items.map (fun it =>
          (snapshotProduct s.products it.product_id).selling_price * it.quantity)).sum,
        (items.map (fun it =>
          ((snapshotProduct s.products it.product_id).selling_price -
            (snapshotProduct s.products it.product_id).manufacturing_cost) *
            it.quantity)).sum,
        (items.map (fun it => it.quantity)).sum,
        items.length⟩,
      { products := bumpSellCounts items s.products,
        rawMaterials := s.rawMaterials.map (fun rm =>
          { rm with quantity_available :=
              rm.quantity_available - requiredOf s items rm.id }),
        ingredients := s.ingredients,
        sales := s.sales ++ saleRowsFrom s.products items 0 }) := by
  have hsnap : ∀ it ∈ items,
      snapshotProduct (s.products.filter (fun p =>
        (items.map (fun it => it.product_id)).contains p.id)) it.product_id =
      snapshotProduct s.products it.product_id :=
    fun it hit => snapshotProduct_filter s items it hit
  have hcond : ¬ ((items.any (fun it =>
      ¬ (s.products.filter (fun p =>
        (items.map (fun it => it.product_id)).contains p.id)).any
        (fun p => p.id = it.product_id))) = true) := by
    intro hc
    obtain ⟨it, hit, hbad⟩ := List.any_eq_true.mp hc
    have hbad' : ¬ ((s.products.filter (fun p =>
        (items.map (fun it => it.product_id)).contains p.id)).any
        (fun p => p.id = it.product_id) = true) := of_decide_eq_true hbad
    apply hbad'
    obtain ⟨p, hp, hpid⟩ := hfound it hit
    refine List.any_eq_true.mpr ⟨p, ?_, by simp [hpid]⟩
    refine List.mem_filter.mpr ⟨hp, ?_⟩
    simp only [hpid]
    exact List.elem_eq_true_of_mem (List.mem_map.mpr ⟨it, hit, rfl⟩)
  have hsuff' : ∀ rm ∈ s.rawMaterials,
      lookupQ (computeRequired items
        (loadIngredientRows s (items.map (fun it => it.product_id)))) rm.id ≤
        rm.quantity_available := fun rm hrm => hsuff rm hrm
  have hshorts := insufficiencies_nil s items hsuff'
  have hkeysnd := computeRequired_keys_nodup items
    (loadIngredientRows s (items.map (fun it => it.product_id)))
  have hex : ∀ e ∈ computeRequired items
      (loadIngredientRows s (items.map (fun it => it.product_id))),
      ∃ rm ∈ s.rawMaterials, rm.id = e.1 ∧ e.2 ≤ rm.quantity_available := by
    intro e he
    have hkey : e.1 ∈ (computeRequired items
        (loadIngredientRows s (items.map (fun it => it.product_id)))).map Prod.fst :=
      List.mem_map.mpr ⟨e, he, rfl⟩
    obtain ⟨r, hr, hrid⟩ := computeRequired_keys_mem items _ e.1 hkey
    obtain ⟨rm, hrmmem, hrmid, _, _, _⟩ := joined_row_spec s _ r hr
    refine ⟨rm, hrmmem, by rw [hrmid, hrid], ?_⟩
    have hval : lookupQ (computeRequired items
        (loadIngredientRows s (items.map (fun it => it.product_id)))) e.1 = e.2 :=
      lookupQ_of_mem_nodup _ e hkeysnd he
    have := hsuff' rm hrmmem
    rw [hrmid, hrid, hval] at this
    exact this
  simp only [checkoutBody]
  rw [if_neg hcond]
  rw [if_pos (by rw [hshorts]; rfl)]
  rw [insertSales_eq]
  have hdecs := applyDecrements_ok
    (computeRequired items (loadIngredientRows s (items.map (fun it => it.product_id))))
    { s with
      products := bumpSellCounts items s.products,
      sales := s.sales ++ saleRowsFrom (s.products.filter (fun p =>
        (items.map (fun it => it.product_id)).contains p.id)) items 0 }
    hndM hkeysnd hex
  simp only at hdecs ⊢
  rw [hdecs]
  simp only [Except.ok.injEq, Prod.mk.injEq]
  constructor
  · rw [saleLinesFrom_congr _ _ items hsnap 0]
    congr 1
    · exact congrArg List.sum (List.map_congr_left (fun it hit => by rw [hsnap it hit]))
    · exact congrArg List.sum (List.map_congr_left (fun it hit => by rw [hsnap it hit]))
    · rw [saleLinesFrom_length]
  · rw [saleRowsFrom_congr _ _ items hsnap 0]
    simp only [requiredOf]
theorem executeCheckout_ok_of_body (raw : List RawCartItem) (s : Store)
    (items : List CartItem) (r : CheckoutResult) (s' : Store)
    (hparse : parseCheckoutItems raw = .ok items)
    (hbody : checkoutBody s items = .ok (r, s')) :
    executeCheckout raw s = (.ok r, s') := by
  unfold executeCheckout
  rw [hparse]
  show (match checkoutBody s items with
        | .ok (r, s') => ((Except.ok r : Except CheckoutError CheckoutResult), s')
        | .error (e, _) => (.error e, s)) = ((Except.ok r : Except CheckoutError CheckoutResult), s')
  rw [hbody]

/-- C1: for every valid cart whose aggregated requirements are all within
the available stock (products resolving, primary keys unique), checkout
succeeds, the Sales table grows by exactly the number of distinct
products in the cart, and each raw material's quantity_available
decreases by exactly its aggregated required amount. -/
theorem checkout_success_spec (raw : List RawCartItem) (s : Store) (items : List CartItem)
    (hparse : parseCheckoutItems raw = .ok items)
    (hndM : (s.rawMaterials.map (fun rm => rm.id)).Nodup)
    (hfound : ∀ it ∈ items, ∃ p ∈ s.products, p.id = it.product_id)
    (hsuff : ∀ rm ∈ s.rawMaterials, requiredOf s items rm.id ≤ rm.quantity_available) :
    ∃ r s', executeCheckout raw s = (.ok r, s') ∧
      s'.sales.length = s.sales.length + distinctProductCount raw ∧
      ∀ rm ∈ s.rawMaterials, findMaterial s' rm.id = some
        { rm with quantity_available :=
            rm.quantity_available - requiredOf s items rm.id } := by
  have hbody := checkoutBody_ok_spec s items hndM hfound hsuff
  have hrun := executeCheckout_ok_of_body raw s items _ _ hparse hbody
  refine ⟨_, _, hrun, ?_, ?_⟩
  · simp only [List.length_append, saleRowsFrom_length]
    rw [parse_items_length raw items hparse]
  · intro rm hrm
    exact find?_map_id_preserving s.rawMaterials
      (fun x => { x with quantity_available :=
        x.quantity_available - requiredOf s items x.id })
      (fun x => rfl) rm hndM hrm

/-- The cross-product-aggregation example store: two products sharing one
raw material (3 and 1 units per item), 7 units in stock. -/
def storeA : Store :=
  ⟨[⟨"p1", "Cake", 3, 10, 0⟩, ⟨"p2", "Pie", 2, 5, 0⟩],
   [⟨"m1", "Flour", 7, "kg", 1, 10⟩],
   [⟨"p1", "m1", 3⟩, ⟨"p2", "m1", 1⟩], []⟩

/-- The example cart [ProductA×2, ProductB×1]. -/
def cartA : List RawCartItem := [⟨some "p1", some 2⟩, ⟨some "p2", some 1⟩]

/-- The parsed form of `cartA`. -/
def itemsA : List CartItem := [⟨"p1", 2⟩, ⟨"p2", 1⟩]

/-- Witness for C1: the cart [p1×2, p2×1] with shared flour (3·2 + 1·1 = 7
required, 7 available) checks out; the journal gains two rows and flour
drops by exactly 7. -/
theorem checkout_success_spec_witness :
    ∃ r s', executeCheckout cartA storeA = (.ok r, s') ∧
      s'.sales.length = storeA.sales.length + distinctProductCount cartA ∧
      ∀ rm ∈ storeA.rawMaterials, findMaterial s' rm.id = some
        { rm with quantity_available :=
            rm.quantity_available - requiredOf storeA itemsA rm.id } := by
  apply checkout_success_spec cartA storeA itemsA
  · rfl
  · decide
  · decide
  · intro rm hrm
    simp only [storeA, List.mem_singleton] at hrm
    subst hrm
    norm_num [requiredOf, computeRequired, loadIngredientRows, findMaterial, bumpAssoc,
      lookupQ, storeA, itemsA, List.foldl, List.filter, List.filterMap, List.find?,
      List.contains, List.elem]

/-! ### Insufficiency characterisation (C4) -/

theorem joined_row_find (s : Store) (pids : List String) :
    ∀ row ∈ loadIngredientRows s pids, ∃ rm,
      findMaterial s row.raw_material_id = some rm ∧ row.raw_material_name = rm.name ∧
      row.raw_material_unit = rm.unit ∧ row.quantity_available = rm.quantity_available := by
  intro row hrow
  obtain ⟨pi, hpi, heq⟩ := List.mem_filterMap.mp hrow
  by_cases hcont : pids.contains pi.product_id
  · rw [if_pos hcont] at heq
    obtain ⟨rm, hfind, hmk⟩ := Option.map_eq_some'.mp heq
    subst hmk
    exact ⟨rm, hfind, rfl, rfl, rfl⟩
  · rw [if_neg hcont] at heq
    cases heq

theorem filterMap_congr_members {α β : Type} (l : List α) (f g : α → Option β)
    (h : ∀ a ∈ l, f a = g a) : l.filterMap f = l.filterMap g := by
  induction l with
  | nil => rfl
  | cons a t ih =>
      rw [List.filterMap_cons, List.filterMap_cons, h a (List.mem_cons_self a t),
        ih (fun x hx => h x (List.mem_cons_of_mem a hx))]

/-- The code's shortfall list (built from the joined-row meta map) equals
the spec-worded one (built by reading the RawMaterials rows directly). -/
theorem insufficiencies_eq_specShortfalls (s : Store) (items : List CartItem) :
    insufficiencies (loadIngredientRows s (items.map (fun it => it.product_id)))
      (computeRequired items (loadIngredientRows s (items.map (fun it => it.product_id)))) =
    specShortfalls s items := by
  rw [insufficiencies, specShortfalls]
  apply filterMap_congr_members
  intro e he
  have hkey : e.1 ∈ (computeRequired items
      (loadIngredientRows s (items.map (fun it => it.product_id)))).map Prod.fst :=
    List.mem_map.mpr ⟨e, he, rfl⟩
  obtain ⟨r, hr, hrid⟩ := computeRequired_keys_mem items _ e.1 hkey
  obtain ⟨m, hmeta, hmmem, hmid⟩ := materialMeta_spec _ e.1 ⟨r, hr, hrid⟩
  obtain ⟨rm, hfind, hname, hunit, hqa⟩ := joined_row_find s _ m hmmem
  rw [hmeta]
  rw [hmid] at hfind
  rw [hfind]
  have hfind' : s.rawMaterials.find? (fun x => x.id = e.1) = some rm := hfind
  have hp := List.find?_some hfind'
  have hrmid : rm.id = e.1 := by simpa using hp
  simp [hname, hunit, hqa, hrmid]

theorem executeCheckout_error_of_body (raw : List RawCartItem) (s : Store)
    (items : List CartItem) (e : CheckoutError) (st : Store)
    (hparse : parseCheckoutItems raw = .ok items)
    (hbody : checkoutBody s items = .error (e, st)) :
    executeCheckout raw s = (.error e, s) := by
  unfold executeCheckout
  rw [hparse]
  show (match checkoutBody s items with
        | .ok (r, s') => ((Except.ok r : Except CheckoutError CheckoutResult), s')
        | .error (e, _) => (.error e, s)) =
      ((Except.error e : Except CheckoutError CheckoutResult), s)
  rw [hbody]

theorem executeCheckout_error_body_inv (raw : List RawCartItem) (s : Store)
    (items : List CartItem) (e : CheckoutError)
    (hparse : parseCheckoutItems raw = .ok items)
    (h : (executeCheckout raw s).1 = .error e) :
    ∃ st, checkoutBody s items = .error (e, st) := by
  have h2 : ((match checkoutBody s items with
        | .ok (r, s') => ((Except.ok r : Except CheckoutError CheckoutResult), s')
        | .error (e, _) => (.error e, s)) :
      Except CheckoutError CheckoutResult × Store).1 = .error e := by
    have hun : executeCheckout raw s = (match checkoutBody s items with
        | .ok (r, s') => ((Except.ok r : Except CheckoutError CheckoutResult), s')
        | .error (e, _) => (.error e, s)) := by
      unfold executeCheckout
      rw [hparse]
    rw [← hun]
    exact h
  rcases hb : checkoutBody s items with v | v
  · obtain ⟨e0, st0⟩ := v
    rw [hb] at h2
    simp at h2
    exact ⟨st0, by rw [h2]⟩
  · obtain ⟨r0, st0⟩ := v
    rw [hb] at h2
    simp at h2

theorem checkoutBody_insufficient_inv (s : Store) (items : List CartItem)
    (ds : List Shortfall) (st : Store)
    (h : checkoutBody s items = .error (.insufficientStock ds, st)) :
    ds = insufficiencies (loadIngredientRows s (items.map (fun it => it.product_id)))
      (computeRequired items (loadIngredientRows s (items.map (fun it => it.product_id)))) ∧
    insufficiencies (loadIngredientRows s (items.map (fun it => it.product_id)))
      (computeRequired items
        (loadIngredientRows s (items.map (fun it => it.product_id)))) ≠ [] := by
  simp only [checkoutBody] at h
  split at h
  · simp at h
  · split at h
    · split at h
      · simp at h
      · simp at h
    · rename_i hne
      simp only [Except.error.injEq, Prod.mk.injEq] at h
      have := h.1
      injection this with h1
      refine ⟨h1.symm, ?_⟩
      intro hc
      apply hne
      rw [hc]
      rfl

theorem checkoutBody_insufficient (s : Store) (items : List CartItem)
    (hfound : ∀ it ∈ items, ∃ p ∈ s.products, p.id = it.product_id)
    (hne : ¬ ((insufficiencies (loadIngredientRows s (items.map (fun it => it.product_id)))
      (computeRequired items
        (loadIngredientRows s (items.map (fun it => it.product_id))))).isEmpty = true)) :
    checkoutBody s items = .error (.insufficientStock
      (insufficiencies (loadIngredientRows s (items.map (fun it => it.product_id)))
        (computeRequired items
          (loadIngredientRows s (items.map (fun it => it.product_id))))), s) := by
  have hcond : ¬ ((items.any (fun it =>
      ¬ (s.products.filter (fun p =>
        (items.map (fun it => it.product_id)).contains p.id)).any
        (fun p => p.id = it.product_id))) = true) := by
    intro hc
    obtain ⟨it, hit, hbad⟩ := List.any_eq_true.mp hc
    have hbad' : ¬ ((s.products.filter (fun p =>
        (items.map (fun it => it.product_id)).contains p.id)).any
        (fun p => p.id = it.product_id) = true) := of_decide_eq_true hbad
    apply hbad'
    obtain ⟨p, hp, hpid⟩ := hfound it hit
    refine List.any_eq_true.mpr ⟨p, ?_, by simp [hpid]⟩
    refine List.mem_filter.mpr ⟨hp, ?_⟩
    simp only [hpid]
    exact List.elem_eq_true_of_mem (List.mem_map.mpr ⟨it, hit, rfl⟩)
  simp only [checkoutBody]
  rw [if_neg hcond, if_neg hne]

theorem findMaterial_self (s : Store) (rm : RawMaterial)
    (hndM : (s.rawMaterials.map (fun x => x.id)).Nodup) (hmem : rm ∈ s.rawMaterials) :
    findMaterial s rm.id = some rm := by
  have h := find?_map_id_preserving s.rawMaterials (fun x => x) (fun x => rfl) rm hndM hmem
  rw [List.map_id'] at h
  exact h

theorem filterMap_ids_sublist (req : List (String × ℚ))
    (g : (String × ℚ) → Option Shortfall)
    (hg : ∀ e d, g e = some d → d.raw_material_id = e.1) :
    ((req.filterMap g).map (fun d => d.raw_material_id)).Sublist (req.map Prod.fst) := by
  induction req with
  | nil => simp
  | cons e t ih =>
      rw [List.filterMap_cons, List.map_cons]
      cases hge : g e with
      | none => exact List.Sublist.cons e.1 ih
      | some d =>
          rw [List.map_cons, hg e d hge]
          exact List.Sublist.cons₂ e.1 ih

/-- Every specShortfalls entry describes a genuinely insufficient
material with the exact field values. -/
theorem specShortfalls_spec (s : Store) (items : List CartItem) :
    ∀ d ∈ specShortfalls s items, ∃ rm ∈ s.rawMaterials,
      rm.id = d.raw_material_id ∧ d.raw_material_name = rm.name ∧
      d.required = requiredOf s items rm.id ∧ d.available = rm.quantity_available ∧
      d.unit = rm.unit ∧ rm.quantity_available < requiredOf s items rm.id := by
  intro d hd
  obtain ⟨e, he, hge⟩ := List.mem_filterMap.mp hd
  split at hge
  · cases hge
  · rename_i rm hfm
    split at hge
    · rename_i hlt
      injection hge with hge
      have hfind' : s.rawMaterials.find? (fun x => x.id = e.1) = some rm := hfm
      have hp := List.find?_some hfind'
      have hrmid : rm.id = e.1 := by simpa using hp
      have hrmmem : rm ∈ s.rawMaterials := List.mem_of_find?_eq_some hfind'
      have hval : requiredOf s items e.1 = e.2 :=
        lookupQ_of_mem_nodup _ e (computeRequired_keys_nodup items _) he
      subst hge
      refine ⟨rm, hrmmem, rfl, rfl, ?_, rfl, rfl, ?_⟩
      · rw [hrmid, hval]
      · rw [hrmid, hval]
        exact hlt
    · cases hge

/-- Every insufficient material contributes a specShortfalls entry. -/
theorem specShortfalls_cover (s : Store) (items : List CartItem)
    (hndM : (s.rawMaterials.map (fun rm => rm.id)).Nodup)
    (hnonneg : ∀ rm ∈ s.rawMaterials, 0 ≤ rm.quantity_available) :
    ∀ rm ∈ s.rawMaterials, rm.quantity_available < requiredOf s items rm.id →
      ∃ d ∈ specShortfalls s items, d.raw_material_id = rm.id := by
  intro rm hrm hlt
  have hkey : rm.id ∈ (computeRequired items
      (loadIngredientRows s (items.map (fun it => it.product_id)))).map Prod.fst := by
    by_contra hnk
    have hz : requiredOf s items rm.id = 0 := lookupQ_eq_zero_of_not_mem _ _ hnk
    rw [hz] at hlt
    exact absurd hlt (not_lt.mpr (hnonneg rm hrm))
  obtain ⟨e, he, hfst⟩ := List.mem_map.mp hkey
  have hval : requiredOf s items rm.id = e.2 := by
    rw [← hfst]
    exact lookupQ_of_mem_nodup _ e (computeRequired_keys_nodup items _) he
  have hfm : findMaterial s e.1 = some rm := by
    rw [hfst]
    exact findMaterial_self s rm hndM hrm
  refine ⟨⟨rm.id, rm.name, e.2, rm.quantity_available, rm.unit⟩,
    List.mem_filterMap.mpr ⟨e, he, ?_⟩, rfl⟩
  rw [hfm]
  show (if rm.quantity_available < e.2 then
      some (⟨rm.id, rm.name, e.2, rm.quantity_available, rm.unit⟩ : Shortfall)
    else none) = some ⟨rm.id, rm.name, e.2, rm.quantity_available, rm.unit⟩
  rw [if_pos (by rw [← hval]; exact hlt)]

/-- C4: given a parsed cart with resolvable products, unique material ids
and nonnegative stock, checkout fails with the insufficient-stock error
iff some material's aggregated requirement strictly exceeds its
availability; the error then carries exactly the shortfall list, which
holds exactly one descriptor {raw_material_id, raw_material_name,
required, available, unit} per insufficient material. -/
theorem checkout_insufficient_iff (raw : List RawCartItem) (s : Store)
    (items : List CartItem)
    (hparse : parseCheckoutItems raw = .ok items)
    (hndM : (s.rawMaterials.map (fun rm => rm.id)).Nodup)
    (hfound : ∀ it ∈ items, ∃ p ∈ s.products, p.id = it.product_id)
    (hnonneg : ∀ rm ∈ s.rawMaterials, 0 ≤ rm.quantity_available) :
    (((executeCheckout raw s).1 = .error (.insufficientStock (specShortfalls s items))) ↔
      ∃ rm ∈ s.rawMaterials, rm.quantity_available < requiredOf s items rm.id) ∧
    (∀ ds, (executeCheckout raw s).1 = .error (.insufficientStock ds) →
      ds = specShortfalls s items) ∧
    ((specShortfalls s items).map (fun d => d.raw_material_id)).Nodup ∧
    (∀ d ∈ specShortfalls s items, ∃ rm ∈ s.rawMaterials,
      rm.id = d.raw_material_id ∧ d.raw_material_name = rm.name ∧
      d.required = requiredOf s items rm.id ∧ d.available = rm.quantity_available ∧
      d.unit = rm.unit ∧ rm.quantity_available < requiredOf s items rm.id) ∧
    (∀ rm ∈ s.rawMaterials, rm.quantity_available < requiredOf s items rm.id →
      ∃ d ∈ specShortfalls s items, d.raw_material_id = rm.id) := by
  have hspec := specShortfalls_spec s items
  have hcover := specShortfalls_cover s items hndM hnonneg
  have heqs := insufficiencies_eq_specShortfalls s items
  have hdsinv : ∀ ds, (executeCheckout raw s).1 = .error (.insufficientStock ds) →
      ds = specShortfalls s items ∧ specShortfalls s items ≠ [] := by
    intro ds hds
    obtain ⟨st, hbody⟩ := executeCheckout_error_body_inv raw s items _ hparse hds
    obtain ⟨h1, h2⟩ := checkoutBody_insufficient_inv s items ds st hbody
    rw [heqs] at h1 h2
    exact ⟨h1, h2⟩
  refine ⟨⟨?_, ?_⟩, fun ds hds => (hdsinv ds hds).1, ?_, hspec, hcover⟩
  · intro h
    have hne := (hdsinv _ h).2
    obtain ⟨d, hd⟩ := List.exists_mem_of_ne_nil _ hne
    obtain ⟨rm, hrmmem, _, _, _, _, _, hlt⟩ := hspec d hd
    exact ⟨rm, hrmmem, hlt⟩
  · rintro ⟨rm, hrm, hlt⟩
    obtain ⟨d, hd, _⟩ := hcover rm hrm hlt
    have hne : specShortfalls s items ≠ [] := by
      intro hc
      rw [hc] at hd
      simp at hd
    have hne' : ¬ ((insufficiencies
        (loadIngredientRows s (items.map (fun it => it.product_id)))
        (computeRequired items
          (loadIngredientRows s (items.map (fun it => it.product_id))))).isEmpty = true) := by
      rw [heqs]
      intro hc
      exact hne (List.isEmpty_iff.mp hc)
    have hbody := checkoutBody_insufficient s items hfound hne'
    have hrun := executeCheckout_error_of_body raw s items _ s hparse hbody
    rw [hrun]
    rw [heqs]
  · have hg : ∀ (e : String × ℚ) (d : Shortfall),
        (match findMaterial s e.1 with
         | none => none
         | some rm =>
             if rm.quantity_available < e.2 then
               some (⟨rm.id, rm.name, e.2, rm.quantity_available, rm.unit⟩ : Shortfall)
             else none) = some d → d.raw_material_id = e.1 := by
      intro e d hge
      split at hge
      · cases hge
      · rename_i rm hfm
        split at hge
        · injection hge with hge
          have hfind' : s.rawMaterials.find? (fun x => x.id = e.1) = some rm := hfm
          have hp := List.find?_some hfind'
          rw [← hge]
          simpa using hp
        · cases hge
    rw [specShortfalls]
    exact List.Nodup.sublist (filterMap_ids_sublist _ _ hg)
      (computeRequired_keys_nodup items _)

/-- The aggregation example store with flour lowered to 6: required
3·2 + 1·1 = 7 exceeds the 6 available. -/
def storeB : Store :=
  ⟨[⟨"p1", "Cake", 3, 10, 0⟩, ⟨"p2", "Pie", 2, 5, 0⟩],
   [⟨"m1", "Flour", 6, "kg", 1, 10⟩],
   [⟨"p1", "m1", 3⟩, ⟨"p2", "m1", 1⟩], []⟩

/-- Witness for C4: with 6 flour available and 7 required, checkout fails
with the insufficient-stock error carrying the shortfall list. -/
theorem checkout_insufficient_iff_witness :
    (executeCheckout cartA storeB).1 =
      .error (.insufficientStock (specShortfalls storeB itemsA)) := by
  refine ((checkout_insufficient_iff cartA storeB itemsA rfl (by decide) (by decide)
    (by decide)).1).mpr ?_
  refine ⟨⟨"m1", "Flour", 6, "kg", 1, 10⟩, by decide, ?_⟩
  norm_num [requiredOf, computeRequired, loadIngredientRows, findMaterial, bumpAssoc,
    lookupQ, storeB, itemsA, List.foldl, List.filter, List.filterMap, List.find?,
    List.contains, List.elem]

/-! ### Coalescing algebra (C6) -/

theorem any_key_eq_true (l : List (String × ℚ)) (k : String) :
    (l.any (fun p => p.1 = k) = true) ↔ k ∈ l.map Prod.fst := by
  rw [List.any_eq_true]
  constructor
  · rintro ⟨p, hp, hpk⟩
    exact List.mem_map.mpr ⟨p, hp, of_decide_eq_true hpk⟩
  · rintro hm
    rcases List.mem_map.mp hm with ⟨p, hp, hpk⟩
    exact ⟨p, hp, by simp [hpk]⟩

theorem bumpAssoc_of_mem (l : List (String × ℚ)) (k : String) (q : ℚ)
    (h : k ∈ l.map Prod.fst) :
    bumpAssoc l k q = l.map (fun p => if p.1 = k then (p.1, p.2 + q) else p) := by
  rw [bumpAssoc, if_pos ((any_key_eq_true l k).mpr h)]

theorem bumpAssoc_of_not_mem (l : List (String × ℚ)) (k : String) (q : ℚ)
    (h : k ∉ l.map Prod.fst) : bumpAssoc l k q = l ++ [(k, q)] := by
  rw [bumpAssoc, if_neg (fun hc => h ((any_key_eq_true l k).mp hc))]

theorem bumpAssoc_add (l : List (String × ℚ)) (pid : String) (q1 q2 : ℚ) :
    bumpAssoc (bumpAssoc l pid q1) pid q2 = bumpAssoc l pid (q1 + q2) := by
  by_cases h : pid ∈ l.map Prod.fst
  · have hk : pid ∈ (bumpAssoc l pid q1).map Prod.fst :=
      (bumpAssoc_mem_keys l pid pid q1).mpr (Or.inr rfl)
    rw [bumpAssoc_of_mem l pid q1 h] at hk ⊢
    rw [bumpAssoc_of_mem _ pid q2 hk, bumpAssoc_of_mem l pid (q1 + q2) h]
    rw [List.map_map]
    refine List.map_congr_left ?_
    intro p hp
    simp only [Function.comp]
    by_cases hpk : p.1 = pid
    · simp [hpk, add_assoc]
    · simp [hpk]
  · have hnil : ∀ p ∈ l, p.1 ≠ pid := by
      intro p hp hc
      exact h (List.mem_map.mpr ⟨p, hp, hc⟩)
    rw [bumpAssoc_of_not_mem l pid q1 h]
    have hk : pid ∈ (l ++ [(pid, q1)]).map Prod.fst := by
      rw [List.map_append]
      exact List.mem_append.mpr (Or.inr (by simp))
    rw [bumpAssoc_of_mem _ pid q2 hk, bumpAssoc_of_not_mem l pid (q1 + q2) h]
    rw [List.map_append]
    have hfix : l.map (fun p => if p.1 = pid then (p.1, p.2 + q2) else p) = l := by
      rw [show l = l.map (fun p => p) from (List.map_id' l).symm]
      rw [List.map_map]
      refine List.map_congr_left ?_
      intro p hp
      simp [hnil p (by simpa using hp)]
    rw [hfix]
    simp [add_assoc]

theorem bumpAssoc_comm (l : List (String × ℚ)) (pid k : String) (q r : ℚ)
    (hcase : pid ∈ l.map Prod.fst ∨ k = pid) :
    bumpAssoc (bumpAssoc l pid q) k r = bumpAssoc (bumpAssoc l k r) pid q := by
  rcases hcase with hmem | heq
  · by_cases hkp : k = pid
    · subst hkp
      rw [bumpAssoc_add, bumpAssoc_add, add_comm]
    · by_cases hk : k ∈ l.map Prod.fst
      · have h1 : k ∈ (bumpAssoc l pid q).map Prod.fst :=
          (bumpAssoc_mem_keys l pid k q).mpr (Or.inl hk)
        have h2 : pid ∈ (bumpAssoc l k r).map Prod.fst :=
          (bumpAssoc_mem_keys l k pid r).mpr (Or.inl hmem)
        rw [bumpAssoc_of_mem l pid q hmem] at h1
        rw [bumpAssoc_of_mem l k r hk] at h2
        rw [bumpAssoc_of_mem l pid q hmem, bumpAssoc_of_mem _ k r h1,
          bumpAssoc_of_mem l k r hk, bumpAssoc_of_mem _ pid q h2]
        rw [List.map_map, List.map_map]
        refine List.map_congr_left ?_
        intro p hp
        simp only [Function.comp]
        have hpk' : ¬ pid = k := fun hc => hkp hc.symm
        by_cases hpk : p.1 = k
        · have hnp : ¬ p.1 = pid := by rw [hpk]; exact hkp
          simp [hpk, hnp, hkp]
        · by_cases hpp : p.1 = pid
          · simp [hpk, hpp, hpk']
          · simp [hpk, hpp]
      · have h1 : k ∉ (bumpAssoc l pid q).map Prod.fst := by
          intro hc
          rcases (bumpAssoc_mem_keys l pid k q).mp hc with hc' | hc'
          · exact hk hc'
          · exact hkp hc'
        have h2 : pid ∈ (bumpAssoc l k r).map Prod.fst :=
          (bumpAssoc_mem_keys l k pid r).mpr (Or.inl hmem)
        rw [bumpAssoc_of_not_mem l k r hk] at h2
        rw [bumpAssoc_of_not_mem _ k r h1, bumpAssoc_of_mem l pid q hmem,
          bumpAssoc_of_not_mem l k r hk, bumpAssoc_of_mem _ pid q h2]
        rw [List.map_append]
        have hlast : ([((k : String), (r : ℚ))]).map
            (fun p => if p.1 = pid then (p.1, p.2 + q) else p) = [(k, r)] := by
          simp [fun hc : k = pid => hkp hc]
        rw [hlast]
  · subst heq
    rw [bumpAssoc_add, bumpAssoc_add, add_comm]

theorem coalesceFold_append (l1 l2 : List RawCartItem) :
    ∀ acc, coalesceFold (l1 ++ l2) acc = coalesceFold l2 (coalesceFold l1 acc) := by
  induction l1 with
  | nil => intro acc; rfl
  | cons it t ih =>
      intro acc
      cases hp : it.product_id with
      | none =>
          have h1 : coalesceFold ((it :: t) ++ l2) acc = coalesceFold (t ++ l2) acc := by
            simp [coalesceFold, hp]
          have h2 : coalesceFold (it :: t) acc = coalesceFold t acc := by
            simp [coalesceFold, hp]
          rw [h1, h2, ih]
      | some pid =>
          cases hq : it.quantity with
          | none =>
              have h1 : coalesceFold ((it :: t) ++ l2) acc = coalesceFold (t ++ l2) acc := by
                simp [coalesceFold, hp, hq]
              have h2 : coalesceFold (it :: t) acc = coalesceFold t acc := by
                simp [coalesceFold, hp, hq]
              rw [h1, h2, ih]
          | some q =>
              by_cases hc : pid ≠ "" ∧ 0 < q
              · have h1 : coalesceFold ((it :: t) ++ l2) acc =
                    coalesceFold (t ++ l2) (bumpAssoc acc pid q) := by
                  simp only [List.cons_append, coalesceFold, hp, hq]
                  rw [if_pos hc]
                  rfl
                have h2 : coalesceFold (it :: t) acc =
                    coalesceFold t (bumpAssoc acc pid q) := by
                  simp only [coalesceFold, hp, hq]
                  rw [if_pos hc]
                rw [h1, h2, ih]
              · have h1 : coalesceFold ((it :: t) ++ l2) acc = coalesceFold (t ++ l2) acc := by
                  simp only [List.cons_append, coalesceFold, hp, hq]
                  rw [if_neg hc]
                  rfl
                have h2 : coalesceFold (it :: t) acc = coalesceFold t acc := by
                  simp only [coalesceFold, hp, hq]
                  rw [if_neg hc]
                rw [h1, h2, ih]

theorem coalesceFold_bump_comm (ys : List RawCartItem) :
    ∀ (B : List (String × ℚ)) (pid : String) (q : ℚ), pid ∈ B.map Prod.fst →
    coalesceFold ys (bumpAssoc B pid q) = bumpAssoc (coalesceFold ys B) pid q := by
  induction ys with
  | nil => intro B pid q _; rfl
  | cons it t ih =>
      intro B pid q hmem
      cases hp : it.product_id with
      | none =>
          have h1 : ∀ a, coalesceFold (it :: t) a = coalesceFold t a := by
            intro a; simp [coalesceFold, hp]
          rw [h1, h1, ih B pid q hmem]
      | some k =>
          cases hq : it.quantity with
          | none =>
              have h1 : ∀ a, coalesceFold (it :: t) a = coalesceFold t a := by
                intro a; simp [coalesceFold, hp, hq]
              rw [h1, h1, ih B pid q hmem]
          | some r =>
              by_cases hc : k ≠ "" ∧ 0 < r
              · have h1 : ∀ a, coalesceFold (it :: t) a =
                    coalesceFold t (bumpAssoc a k r) := by
                  intro a
                  simp only [coalesceFold, hp, hq]
                  rw [if_pos hc]
                rw [h1, h1]
                rw [bumpAssoc_comm B pid k q r (Or.inl hmem)]
                rw [ih (bumpAssoc B k r) pid q
                  ((bumpAssoc_mem_keys B k pid r).mpr (Or.inl hmem))]
              · have h1 : ∀ a, coalesceFold (it :: t) a = coalesceFold t a := by
                  intro a
                  simp only [coalesceFold, hp, hq]
                  rw [if_neg hc]
                rw [h1, h1, ih B pid q hmem]

theorem coalesceFold_single (pid : String) (q : ℚ) (hpid : pid ≠ "") (hq : 0 < q)
    (A : List (String × ℚ)) :
    coalesceFold [⟨some pid, some q⟩] A = bumpAssoc A pid q := by
  simp only [coalesceFold]
  rw [if_pos ⟨hpid, hq⟩]

theorem parse_dup_equiv (xs ys zs : List RawCartItem) (pid : String) (q1 q2 : ℚ)
    (h1 : 0 < q1) (h2 : 0 < q2) (hpid : pid ≠ "") :
    parseCheckoutItems
      (xs ++ [⟨some pid, some q1⟩] ++ ys ++ [⟨some pid, some q2⟩] ++ zs) =
    parseCheckoutItems (xs ++ [⟨some pid, some (q1 + q2)⟩] ++ ys ++ zs) := by
  have hv1 : validLine ⟨some pid, some q1⟩ := ⟨pid, q1, rfl, hpid, rfl, h1⟩
  have hv2 : validLine ⟨some pid, some q2⟩ := ⟨pid, q2, rfl, hpid, rfl, h2⟩
  have hv12 : validLine ⟨some pid, some (q1 + q2)⟩ :=
    ⟨pid, q1 + q2, rfl, hpid, rfl, by positivity⟩
  have hne1 : (xs ++ [(⟨some pid, some q1⟩ : RawCartItem)] ++ ys ++
      [⟨some pid, some q2⟩] ++ zs) ≠ [] := by simp
  have hne2 : (xs ++ [(⟨some pid, some (q1 + q2)⟩ : RawCartItem)] ++ ys ++ zs) ≠ [] := by
    simp
  by_cases hval : ∀ it ∈ xs ++ ys ++ zs, validLine it
  · have hval1 : ∀ it ∈ xs ++ [(⟨some pid, some q1⟩ : RawCartItem)] ++ ys ++
        [⟨some pid, some q2⟩] ++ zs, validLine it := by
      intro it hit
      simp only [List.mem_append, List.mem_singleton] at hit
      rcases hit with ((((hx | hx) | hx) | hx) | hx)
      · exact hval it (by simp [hx])
      · rw [hx]; exact hv1
      · exact hval it (by simp [hx])
      · rw [hx]; exact hv2
      · exact hval it (by simp [hx])
    have hval2 : ∀ it ∈ xs ++ [(⟨some pid, some (q1 + q2)⟩ : RawCartItem)] ++ ys ++ zs,
        validLine it := by
      intro it hit
      simp only [List.mem_append, List.mem_singleton] at hit
      rcases hit with (((hx | hx) | hx) | hx)
      · exact hval it (by simp [hx])
      · rw [hx]; exact hv12
      · exact hval it (by simp [hx])
      · exact hval it (by simp [hx])
    rw [parseCheckoutItems_ok_char _ hne1 hval1, parseCheckoutItems_ok_char _ hne2 hval2]
    have hcf : coalesceFold (xs ++ [(⟨some pid, some q1⟩ : RawCartItem)] ++ ys ++
        [⟨some pid, some q2⟩] ++ zs) [] =
        coalesceFold (xs ++ [(⟨some pid, some (q1 + q2)⟩ : RawCartItem)] ++ ys ++ zs) [] := by
      rw [coalesceFold_append, coalesceFold_append, coalesceFold_append,
        coalesceFold_append, coalesceFold_append, coalesceFold_append,
        coalesceFold_append]
      rw [coalesceFold_single pid q1 hpid h1, coalesceFold_single pid q2 hpid h2,
        coalesceFold_single pid (q1 + q2) hpid (by positivity)]
      rw [← bumpAssoc_add]
      rw [coalesceFold_bump_comm ys (bumpAssoc (coalesceFold xs []) pid q1) pid q2
        ((bumpAssoc_mem_keys _ pid pid q1).mpr (Or.inr rfl))]
    rw [hcf]
  · have hbad : ∃ it ∈ xs ++ ys ++ zs, ¬ validLine it := by
      push_neg at hval
      exact hval
    obtain ⟨bad, hbadmem, hbadval⟩ := hbad
    simp only [List.mem_append] at hbadmem
    have hb1 : ∃ it ∈ xs ++ [(⟨some pid, some q1⟩ : RawCartItem)] ++ ys ++
        [⟨some pid, some q2⟩] ++ zs, ¬ validLine it := by
      refine ⟨bad, ?_, hbadval⟩
      simp only [List.mem_append]
      rcases hbadmem with (hx | hx) | hx
      · exact Or.inl (Or.inl (Or.inl (Or.inl hx)))
      · exact Or.inl (Or.inl (Or.inr hx))
      · exact Or.inr hx
    have hb2 : ∃ it ∈ xs ++ [(⟨some pid, some (q1 + q2)⟩ : RawCartItem)] ++ ys ++ zs,
        ¬ validLine it := by
      refine ⟨bad, ?_, hbadval⟩
      simp only [List.mem_append]
      rcases hbadmem with (hx | hx) | hx
      · exact Or.inl (Or.inl (Or.inl hx))
      · exact Or.inl (Or.inr hx)
      · exact Or.inr hx
    rw [parseCheckoutItems_eq, parseCheckoutItems_eq]
    rw [if_neg (by intro hc; exact hne1 (List.isEmpty_iff.mp hc)),
      if_neg (by intro hc; exact hne2 (List.isEmpty_iff.mp hc))]
    rw [parse_fold_error _ [] hb1, parse_fold_error _ [] hb2]

/-- C6: a cart containing two lines for the same product is processed
identically — same result, same errors, same committed store — to the
cart in which they are replaced by a single line carrying the summed
quantity; in particular [A×2, A×3] behaves as [A×5]. -/
theorem checkout_duplicate_lines_equiv (s : Store) (xs ys zs : List RawCartItem)
    (pid : String) (q1 q2 : ℚ) (h1 : 0 < q1) (h2 : 0 < q2) (hpid : pid ≠ "") :
    executeCheckout
      (xs ++ [⟨some pid, some q1⟩] ++ ys ++ [⟨some pid, some q2⟩] ++ zs) s =
    executeCheckout (xs ++ [⟨some pid, some (q1 + q2)⟩] ++ ys ++ zs) s := by
  unfold executeCheckout
  rw [parse_dup_equiv xs ys zs pid q1 q2 h1 h2 hpid]

/-- Witness for C6: [p1×2, p1×3] is processed exactly as [p1×5] against
the example store. -/
theorem checkout_duplicate_lines_equiv_witness :
    executeCheckout [⟨some "p1", some 2⟩, ⟨some "p1", some 3⟩] storeA =
      executeCheckout [⟨some "p1", some (2 + 3 : ℚ)⟩] storeA := by
  have h := checkout_duplicate_lines_equiv storeA [] [] [] "p1" 2 3
    (by decide) (by decide) (by decide)
  simpa using h

/-! ### Stock nonnegativity (C7) -/

theorem applyDecrements_nonneg (req : List (String × ℚ)) :
    ∀ s s', applyDecrements req s = .ok s' →
    (∀ rm ∈ s.rawMaterials, 0 ≤ rm.quantity_available) →
    ∀ rm ∈ s'.rawMaterials, 0 ≤ rm.quantity_available := by
  induction req with
  | nil =>
      intro s s' h hpre
      rw [applyDecrements, List.foldlM_nil] at h
      injection h with h
      rw [← h]
      exact hpre
  | cons e t ih =>
      intro s s' h hpre
      rw [applyDecrements, List.foldlM_cons] at h
      unfold decrementStep at h
      split at h
      · have hstep : ∀ rm ∈ (({ s with rawMaterials := s.rawMaterials.map (fun rm =>
            if rm.id = e.1 ∧ e.2 ≤ rm.quantity_available then
              { rm with quantity_available := rm.quantity_available - e.2 }
            else rm) }) : Store).rawMaterials, 0 ≤ rm.quantity_available := by
          intro rm hrm
          simp only [List.mem_map] at hrm
          obtain ⟨rm0, hrm0, hrm0eq⟩ := hrm
          by_cases hc : rm0.id = e.1 ∧ e.2 ≤ rm0.quantity_available
          · rw [if_pos hc] at hrm0eq
            rw [← hrm0eq]
            exact sub_nonneg.mpr hc.2
          · rw [if_neg hc] at hrm0eq
            rw [← hrm0eq]
            exact hpre rm0 hrm0
        exact ih _ s' h hstep
      · cases h

theorem executeCheckout_ok_body_inv (raw : List RawCartItem) (s : Store)
    (r : CheckoutResult) (h : (executeCheckout raw s).1 = .ok r) :
    ∃ items, parseCheckoutItems raw = .ok items ∧
      checkoutBody s items = .ok (r, (executeCheckout raw s).2) := by
  rcases hp : parseCheckoutItems raw with msg | items
  · have : executeCheckout raw s = (.error (.validation msg), s) := by
      unfold executeCheckout
      rw [hp]
    rw [this] at h
    cases h
  · refine ⟨items, rfl, ?_⟩
    have hun : executeCheckout raw s = (match checkoutBody s items with
        | .ok (r, s') => ((Except.ok r : Except CheckoutError CheckoutResult), s')
        | .error (e, _) => (.error e, s)) := by
      unfold executeCheckout
      rw [hp]
    rcases hb : checkoutBody s items with v | v
    · obtain ⟨e0, st0⟩ := v
      rw [hun, hb] at h
      cases h
    · obtain ⟨r0, st0⟩ := v
      rw [hun, hb] at h
      injection h with h
      rw [hun, hb, h]

theorem checkoutBody_ok_nonneg (s : Store) (items : List CartItem)
    (r : CheckoutResult) (s2 : Store) (h : checkoutBody s items = .ok (r, s2))
    (hpre : ∀ rm ∈ s.rawMaterials, 0 ≤ rm.quantity_available) :
    ∀ rm ∈ s2.rawMaterials, 0 ≤ rm.quantity_available := by
  simp only [checkoutBody] at h
  split at h
  · cases h
  · split at h
    · split at h
      · rename_i s3 hdec
        simp only [Except.ok.injEq, Prod.mk.injEq] at h
        have hins : (insertSales (s.products.filter (fun p =>
            (items.map (fun it => it.product_id)).contains p.id)) items s).1.rawMaterials =
            s.rawMaterials := by
          rw [insertSales_eq]
        refine fun rm hrm => applyDecrements_nonneg _ _ s3 hdec ?_ rm (by
          rw [h.2]
          exact hrm)
        rw [hins]
        exact hpre
      · cases h
    · cases h

/-- Counterexample to C7 as stated: PUT /api/raw-materials/:id stores the
caller's parsed quantity without validation, so an update with
quantity_available = −1 commits negative stock. -/
theorem stock_nonneg_claim_counterexample :
    updateRawMaterial (Store.mk [] [⟨"m1", "Flour", 5, "kg", 1, 10⟩] [] []) "m1"
        ⟨none, some (-1), none, none, none⟩ =
      some (Store.mk [] [⟨"m1", "Flour", -1, "kg", 1, 10⟩] [] []) ∧
    ¬ ((0 : ℚ) ≤ -1) := by
  constructor
  · rfl
  · decide

/-- C7 (amended): checkout always preserves the nonnegative-stock
invariant (the conditional decrement only fires when enough stock
remains); the raw-material create and update routes preserve it only when
the caller-supplied quantity is itself nonnegative, since they store the
parsed value without validation. -/
theorem stock_nonneg_amended (s : Store)
    (hpre : ∀ rm ∈ s.rawMaterials, 0 ≤ rm.quantity_available) :
    (∀ raw, ∀ rm ∈ (executeCheckout raw s).2.rawMaterials, 0 ≤ rm.quantity_available) ∧
    (∀ id b s', createRawMaterial s id b = some s' →
      (∀ q, b.quantity_available = some q → 0 ≤ q) →
      ∀ rm ∈ s'.rawMaterials, 0 ≤ rm.quantity_available) ∧
    (∀ id b s', updateRawMaterial s id b = some s' →
      (∀ q, b.quantity_available = some q → 0 ≤ q) →
      ∀ rm ∈ s'.rawMaterials, 0 ≤ rm.quantity_available) := by
  refine ⟨?_, ?_, ?_⟩
  · intro raw rm' hrm'
    rcases hres : (executeCheckout raw s).1 with e | r
    · have hpair := executeCheckout_fst_error raw s e hres
      rw [hpair] at hrm'
      exact hpre rm' hrm'
    · obtain ⟨items, _, hbody⟩ := executeCheckout_ok_body_inv raw s r hres
      exact checkoutBody_ok_nonneg s items r _ hbody hpre rm' hrm'
  · intro id b s' h hq
    obtain ⟨bn, bqa, bu, bc, bl⟩ := b
    rcases bn with _ | nm
    · simp [createRawMaterial] at h
    · rcases bqa with _ | qa
      · simp [createRawMaterial] at h
      · rcases bu with _ | u
        · simp [createRawMaterial] at h
        · rcases bc with _ | c
          · simp [createRawMaterial] at h
          · simp only [createRawMaterial] at h
            split at h
            · cases h
            · injection h with h
              intro rm hrm
              rw [← h] at hrm
              simp only [List.mem_append, List.mem_singleton] at hrm
              rcases hrm with hrm | hrm
              · exact hpre rm hrm
              · rw [hrm]
                exact hq qa rfl
  · intro id b s' h hq
    simp only [updateRawMaterial] at h
    split at h
    · cases h
    · rename_i existing hf
      injection h with h
      intro rm hrm
      rw [← h] at hrm
      simp only [List.mem_map] at hrm
      obtain ⟨rm0, hrm0, hrm0eq⟩ := hrm
      by_cases hid : rm0.id = id
      · rw [if_pos hid] at hrm0eq
        rw [← hrm0eq]
        rcases hqa : b.quantity_available with _ | qa
        · simp only [hqa, Option.getD_none]
          exact hpre existing (List.mem_of_find?_eq_some hf)
        · simp only [hqa, Option.getD_some]
          exact hq qa hqa
      · rw [if_neg hid] at hrm0eq
        rw [← hrm0eq]
        exact hpre rm0 hrm0

/-- Witness for C7's amended theorem: the example store is nonnegative and
stays nonnegative through the example checkout. -/
theorem stock_nonneg_amended_witness :
    (∀ rm ∈ storeA.rawMaterials, 0 ≤ rm.quantity_available) ∧
    ∀ rm ∈ (executeCheckout cartA storeA).2.rawMaterials, 0 ≤ rm.quantity_available :=
  ⟨by decide, (stock_nonneg_amended storeA (by decide)).1 cartA⟩

/-! ### Ingredient-set writes (C8) -/

theorem findMaterial_congr (s t : Store) (h : s.rawMaterials = t.rawMaterials) (mid : String) :
    findMaterial s mid = findMaterial t mid := by
  simp [findMaterial, h]

theorem ingredientStep_ok (pid : String) (acc : Store × List String × ℚ)
    (ing : IngredientInput) (acc' : Store × List String × ℚ)
    (h : ingredientStep pid acc ing = .ok acc') :
    ∃ rmid q rm, ing.raw_material_id = some rmid ∧ ing.quantity_used = some q ∧
      findMaterial acc.1 rmid = some rm ∧
      acc' = ({ acc.1 with ingredients := acc.1.ingredients ++ [⟨pid, rmid, q⟩] },
        acc.2.1 ++ [rmid], acc.2.2 + q * rm.cost_per_unit) := by
  simp only [ingredientStep] at h
  split at h
  · cases h
  · rename_i rmid heq
    split at h
    · cases h
    · split at h
      · cases h
      · rename_i q heq2
        split at h
        · cases h
        · split at h
          · cases h
          · split at h
            · cases h
            · rename_i rm hfm
              injection h with h
              exact ⟨rmid, q, rm, heq, heq2, hfm, h.symm⟩

theorem ingredientFold_spec (pid : String) (ings : List IngredientInput) :
    ∀ (st : Store) (seen : List String) (cost : ℚ) (stf : Store) (seenf : List String)
      (costf : ℚ),
    ings.foldlM (ingredientStep pid) (st, seen, cost) = .ok (stf, seenf, costf) →
    stf.rawMaterials = st.rawMaterials ∧ stf.products = st.products ∧
      stf.sales = st.sales ∧
    ∃ rows : List IngredientRow,
      stf.ingredients = st.ingredients ++ rows ∧
      (∀ r ∈ rows, r.product_id = pid) ∧
      costf = cost + (rows.map (fun r => r.quantity_used *
        ((findMaterial st r.raw_material_id).getD default).cost_per_unit)).sum := by
  induction ings with
  | nil =>
      intro st seen cost stf seenf costf h
      rw [List.foldlM_nil] at h
      injection h with h
      injection h with h1 h2
      injection h2 with h2 h3
      subst h1; subst h3
      exact ⟨rfl, rfl, rfl, [], by simp, by simp, by simp⟩
  | cons ing t ih =>
      intro st seen cost stf seenf costf h
      rw [List.foldlM_cons] at h
      cases hstep : ingredientStep pid (st, seen, cost) ing with
      | error msg => rw [hstep] at h; cases h
      | ok acc' =>
          rw [hstep] at h
          obtain ⟨st1, seen1, cost1⟩ := acc'
          have h' : t.foldlM (ingredientStep pid) (st1, seen1, cost1) =
              .ok (stf, seenf, costf) := h
          obtain ⟨rmid, q, rm, _, _, hfm, hacc⟩ := ingredientStep_ok pid _ ing _ hstep
          injection hacc with ha1 ha2
          injection ha2 with ha2 ha3
          obtain ⟨hrm1, hpr1, hsa1, rows', hing1, hpid1, hcost1⟩ :=
            ih st1 seen1 cost1 stf seenf costf h'
          have hrmeq : st1.rawMaterials = st.rawMaterials := by rw [ha1]
      -- the appended row followed by whatever the tail appends
          refine ⟨by rw [hrm1, hrmeq], by rw [hpr1, ha1], by rw [hsa1, ha1],
            ⟨pid, rmid, q⟩ :: rows', ?_, ?_, ?_⟩
          · rw [hing1, ha1]
            simp
          · intro r hr
            rcases List.mem_cons.mp hr with hr | hr
            · rw [hr]
            · exact hpid1 r hr
          · have hfold : ∀ r ∈ rows', r.quantity_used *
                ((findMaterial st1 r.raw_material_id).getD default).cost_per_unit =
                r.quantity_used *
                ((findMaterial st r.raw_material_id).getD default).cost_per_unit := by
              intro r _
              rw [findMaterial_congr st1 st hrmeq]
            rw [hcost1, ha3, List.map_cons, List.sum_cons]
            simp only [hfm, Option.getD_some]
            rw [List.map_congr_left hfold]
            ring

theorem filter_ne_then_eq (l : List IngredientRow) (pid : String) :
    (l.filter (fun r => r.product_id ≠ pid)).filter (fun r => r.product_id = pid) = [] := by
  induction l with
  | nil => rfl
  | cons a t ih =>
      by_cases h : a.product_id = pid <;> simp [List.filter_cons, h, ih]

/-- On success `setProductIngredients` leaves every other table alone,
replaces the product's ingredient rows, and returns exactly
Σ quantity_used × cost_per_unit over the rows it wrote, costs read from
the untouched RawMaterials table. -/
theorem setProductIngredients_spec (s : Store) (pid : String) (ings : List IngredientInput)
    (s1 : Store) (mc : ℚ) (h : setProductIngredients s pid ings = .ok (s1, mc)) :
    s1.rawMaterials = s.rawMaterials ∧ s1.products = s.products ∧ s1.sales = s.sales ∧
    mc = ((s1.ingredients.filter (fun r => r.product_id = pid)).map (fun r =>
      r.quantity_used *
        ((findMaterial s r.raw_material_id).getD default).cost_per_unit)).sum := by
  simp only [setProductIngredients] at h
  split at h
  · injection h with h
    injection h with h1 h2
    subst h2
    refine ⟨by rw [← h1], by rw [← h1], by rw [← h1], ?_⟩
    rw [← h1]
    simp [filter_ne_then_eq]
  · cases hfold : List.foldlM (ingredientStep pid)
        ({ s with ingredients := s.ingredients.filter (fun r => r.product_id ≠ pid) },
          ([] : List String), (0 : ℚ)) ings with
    | error msg =>
        rw [hfold] at h
        cases h
    | ok acc =>
        rw [hfold] at h
        obtain ⟨stf, seenf, costf⟩ := acc
        injection h with h
        injection h with h1 h2
        subst h2
        obtain ⟨hrm, hpr, hsa, rows, hing, hpid, hcost⟩ :=
          ingredientFold_spec pid ings _ _ _ _ _ _ hfold
        have hrm' : s1.rawMaterials = s.rawMaterials := by rw [← h1]; exact hrm
        refine ⟨hrm', by rw [← h1]; exact hpr, by rw [← h1]; exact hsa, ?_⟩
        have hflt : s1.ingredients.filter (fun r => r.product_id = pid) = rows := by
          rw [← h1, hing]
          show ((s.ingredients.filter (fun r => r.product_id ≠ pid)) ++ rows).filter
            (fun r => r.product_id = pid) = rows
          rw [List.filter_append, filter_ne_then_eq, List.nil_append]
          exact List.filter_eq_self.mpr (fun r hr => by simp [hpid r hr])
        have hfm : ∀ r ∈ rows, r.quantity_used * ((findMaterial { s with ingredients := s.ingredients.filter (fun x => x.product_id ≠ pid) } r.raw_material_id).getD default).cost_per_unit = r.quantity_used * ((findMaterial s r.raw_material_id).getD default).cost_per_unit := by
          intro r _
          simp only [findMaterial]
        rw [hflt, hcost, List.map_congr_left hfm]
        ring

/-- PUT /api/products/:id succeeding with an `ingredients` field present:
the found row, the rewritten ingredient table and the recomputed cost. -/
theorem putProduct_ok_ings (s : Store) (pid : String) (b : ProductPatch)
    (ings : List IngredientInput) (s2 : Store)
    (hings : b.ingredients = some ings) (h : putProduct s pid b = some (.ok s2)) :
    ∃ existing s1 mc, s.products.find? (fun p => p.id = pid) = some existing ∧
      setProductIngredients s pid ings = .ok (s1, mc) ∧
      s2 = { s1 with products := s1.products.map (fun p =>
        if p.id = pid then
          { p with
            name := strOr b.name existing.name,
            manufacturing_cost := mc,
            selling_price := b.selling_price.getD existing.selling_price }
        else p) } := by
  simp only [putProduct, hings] at h
  split at h
  · cases h
  · rename_i existing hf
    injection h with h
    split at h
    · cases h
    · rename_i s1 mc heq
      injection h with h
      exact ⟨existing, s1, mc, hf, heq, h.symm⟩

/-- C8 (amended): on every successful product write whose body carries an
`ingredients` field — the writes that change the ingredient set — the
stored manufacturing_cost equals Σ quantity_used × cost_per_unit over the
product's ingredient rows at write time, and the body's
`manufacturing_cost` field is ignored; only writes that leave the
ingredient set untouched take it as an input. -/
theorem manufacturing_cost_recompute (s : Store) (pid : String) (b : ProductPatch)
    (ings : List IngredientInput) (s2 : Store)
    (hings : b.ingredients = some ings)
    (h : putProduct s pid b = some (.ok s2)) :
    (∃ p, findProduct s2 pid = some p ∧
      p.manufacturing_cost = ((s2.ingredients.filter (fun r => r.product_id = pid)).map
        (fun r => r.quantity_used *
          ((findMaterial s2 r.raw_material_id).getD default).cost_per_unit)).sum) ∧
    ∀ mc', putProduct s pid { b with manufacturing_cost := mc' } = putProduct s pid b := by
  obtain ⟨existing, s1, mc, hf, hset, hs2⟩ := putProduct_ok_ings s pid b ings s2 hings h
  obtain ⟨hrm, hpr, hsa, hmc⟩ := setProductIngredients_spec s pid ings s1 mc hset
  constructor
  · have hexid : existing.id = pid := by
      have := List.find?_some hf
      exact of_decide_eq_true this
    have hfind : findProduct s2 pid = some
        { existing with
          name := strOr b.name existing.name,
          manufacturing_cost := mc,
          selling_price := b.selling_price.getD existing.selling_price } := by
      rw [hs2]
      show (s1.products.map (fun p =>
        if p.id = pid then
          { p with
            name := strOr b.name existing.name,
            manufacturing_cost := mc,
            selling_price := b.selling_price.getD existing.selling_price }
        else p)).find? (fun p => p.id = pid) = _
      rw [List.find?_map]
      have hpred : ((fun p : Product => decide (p.id = pid)) ∘ (fun p =>
          if p.id = pid then
            { p with
              name := strOr b.name existing.name,
              manufacturing_cost := mc,
              selling_price := b.selling_price.getD existing.selling_price }
          else p)) = (fun p : Product => decide (p.id = pid)) := by
        funext p
        by_cases hc : p.id = pid <;> simp [hc]
      rw [hpred, hpr, hf]
      simp only [Option.map_some']
      rw [if_pos hexid]
    refine ⟨_, hfind, ?_⟩
    have hing2 : s2.ingredients = s1.ingredients := by rw [hs2]
    have hfm2 : ∀ r ∈ s2.ingredients.filter (fun r => r.product_id = pid),
        r.quantity_used * ((findMaterial s2 r.raw_material_id).getD default).cost_per_unit =
        r.quantity_used * ((findMaterial s r.raw_material_id).getD default).cost_per_unit := by
      intro r _
      have : s2.rawMaterials = s.rawMaterials := by rw [hs2]; exact hrm
      rw [findMaterial_congr s2 s this]
    rw [List.map_congr_left hfm2, hing2]
    exact hmc
  · intro mc'
    have hings' : ({ b with manufacturing_cost := mc' } : ProductPatch).ingredients =
        some ings := hings
    simp only [putProduct, hings, hings']

/-- The C8 example store: one product whose single ingredient row (2 kg of
flour at cost 3) yields Σ quantity_used × cost_per_unit = 6. -/
def storeC8 : Store :=
  ⟨[⟨"p1", "Cake", 6, 10, 0⟩], [⟨"m1", "Flour", 100, "kg", 3, 10⟩], [⟨"p1", "m1", 2⟩], []⟩

/-- Counterexample to C8 as stated: a PUT whose body omits `ingredients`
but carries `manufacturing_cost = 999` commits 999 directly — the
ingredient rows still say Σ = 6 — so manufacturing_cost IS taken as an
independent input from the caller on such writes. -/
theorem manufacturing_cost_claim_counterexample :
    putProduct storeC8 "p1" ⟨none, some 999, none, none⟩ =
      some (.ok ⟨[⟨"p1", "Cake", 999, 10, 0⟩], [⟨"m1", "Flour", 100, "kg", 3, 10⟩],
        [⟨"p1", "m1", 2⟩], []⟩) ∧
    ((([⟨"p1", "m1", 2⟩] : List IngredientRow)).map (fun r =>
      r.quantity_used * ((findMaterial storeC8 r.raw_material_id).getD default).cost_per_unit)).sum = 6 ∧
    (999 : ℚ) ≠ 6 := by
  refine ⟨?_, ?_, ?_⟩
  · rfl
  · norm_num [findMaterial, storeC8, List.find?]
  · norm_num

/-- The PUT body of the C8 witness: a decoy manufacturing_cost of 999 next
to an ingredients list worth 2 × 3. -/
def bC8 : ProductPatch := ⟨none, some 999, none, some [⟨some "m1", some 2⟩]⟩

/-- The store committed by the C8 witness write. -/
def s2C8w : Store :=
  ⟨[⟨"p1", "Cake", 0 + 2 * 3, 10, 0⟩], [⟨"m1", "Flour", 100, "kg", 3, 10⟩],
    [⟨"p1", "m1", 2⟩], []⟩

/-- Witness for C8's amended theorem: writing ingredients [2 kg of m1]
stores manufacturing_cost 6 = Σ over the rows, ignoring the body's 999. -/
theorem manufacturing_cost_recompute_witness :
    (∃ p, findProduct s2C8w "p1" = some p ∧
      p.manufacturing_cost = ((s2C8w.ingredients.filter (fun r => r.product_id = "p1")).map
        (fun r => r.quantity_used *
          ((findMaterial s2C8w r.raw_material_id).getD default).cost_per_unit)).sum) ∧
    ∀ mc', putProduct storeC8 "p1" { bC8 with manufacturing_cost := mc' } =
      putProduct storeC8 "p1" bC8 :=
  manufacturing_cost_recompute storeC8 "p1" bC8 [⟨some "m1", some 2⟩] s2C8w rfl rfl

/-! ### Price snapshots (C9) -/

theorem applyDecrements_frame (req : List (String × ℚ)) :
    ∀ s s', applyDecrements req s = .ok s' →
    s'.products = s.products ∧ s'.ingredients = s.ingredients ∧ s'.sales = s.sales := by
  induction req with
  | nil =>
      intro s s' h
      rw [applyDecrements, List.foldlM_nil] at h
      injection h with h
      rw [← h]
      exact ⟨rfl, rfl, rfl⟩
  | cons e t ih =>
      intro s s' h
      rw [applyDecrements, List.foldlM_cons] at h
      unfold decrementStep at h
      split at h
      · exact ih ({ s with rawMaterials := s.rawMaterials.map (fun rm =>
            if rm.id = e.1 ∧ e.2 ≤ rm.quantity_available then
              { rm with quantity_available := rm.quantity_available - e.2 }
            else rm) } : Store) s' h
      · cases h

theorem saleRowsFrom_mem (products : List Product) (items : List CartItem) :
    ∀ (n : Nat) (row : Sale), row ∈ saleRowsFrom products items n →
    ∃ it ∈ items, row.product_id = it.product_id ∧ row.quantity = it.quantity ∧
      row.total_price = (snapshotProduct products it.product_id).selling_price * it.quantity ∧
      row.total_profit = ((snapshotProduct products it.product_id).selling_price -
        (snapshotProduct products it.product_id).manufacturing_cost) * it.quantity := by
  induction items with
  | nil => intro n row h; simp [saleRowsFrom] at h
  | cons it t ih =>
      intro n row h
      simp only [saleRowsFrom] at h
      rcases List.mem_cons.mp h with h1 | h1
      · refine ⟨it, List.mem_cons_self it t, ?_⟩
        rw [h1]
        exact ⟨rfl, rfl, rfl, rfl⟩
      · obtain ⟨it', hit', hprops⟩ := ih (n + 1) row h1
        exact ⟨it', List.mem_cons_of_mem it hit', hprops⟩

/-- A successful transaction body resolves every cart line to a product
and appends exactly the snapshot-priced sale rows to the journal. -/
theorem checkoutBody_ok_sales (s : Store) (items : List CartItem) (r : CheckoutResult)
    (s2 : Store) (h : checkoutBody s items = .ok (r, s2)) :
    (∀ it ∈ items, ∃ p ∈ s.products, p.id = it.product_id) ∧
    s2.sales = s.sales ++ saleRowsFrom s.products items 0 := by
  simp only [checkoutBody] at h
  split at h
  · cases h
  · rename_i hcond
    have hfound : ∀ it ∈ items, ∃ p ∈ s.products, p.id = it.product_id := by
      intro it hit
      by_contra hnone
      apply hcond
      refine List.any_eq_true.mpr ⟨it, hit, ?_⟩
      simp only [decide_eq_true_eq]
      intro hany
      obtain ⟨p, hp, hpid⟩ := List.any_eq_true.mp hany
      exact hnone ⟨p, List.mem_of_mem_filter hp, of_decide_eq_true hpid⟩
    refine ⟨hfound, ?_⟩
    split at h
    · split at h
      · rename_i s3 hdec
        simp only [Except.ok.injEq, Prod.mk.injEq] at h
        have hins : (insertSales (s.products.filter (fun p =>
            (items.map (fun it => it.product_id)).contains p.id)) items s).1.sales =
            s.sales ++ saleRowsFrom (s.products.filter (fun p =>
              (items.map (fun it => it.product_id)).contains p.id)) items 0 := by
          rw [insertSales_eq]
        have hframe := applyDecrements_frame _ _ s3 hdec
        have hsnap : ∀ it ∈ items,
            snapshotProduct (s.products.filter (fun p =>
              (items.map (fun it => it.product_id)).contains p.id)) it.product_id =
            snapshotProduct s.products it.product_id :=
          fun it hit => snapshotProduct_filter s items it hit
        rw [← h.2, hframe.2.2, hins, saleRowsFrom_congr _ _ items hsnap 0]
      · cases h
    · cases h

/-- PUT /api/products/:id never touches the Sales table. -/
theorem putProduct_sales (s : Store) (pid : String) (b : ProductPatch) (s2 : Store)
    (h : putProduct s pid b = some (.ok s2)) : s2.sales = s.sales := by
  simp only [putProduct] at h
  split at h
  · cases h
  · rename_i existing hf
    injection h with h
    split at h
    · cases h
    · rename_i s1 nextMC heq
      injection h with h
      have hs1 : s1.sales = s.sales := by
        cases hbi : b.ingredients with
        | none =>
            rw [hbi] at heq
            injection heq with heq
            injection heq with heq1 heq2
            rw [← heq1]
        | some ings =>
            rw [hbi] at heq
            exact (setProductIngredients_spec s pid ings s1 nextMC heq).2.2.1
      rw [← h]
      exact hs1

/-- C9: every Sale row created by a successful checkout carries
total_price = quantity × selling_price and total_profit = quantity ×
(selling_price − manufacturing_cost) read from the pre-checkout product
row, and a later product update (PUT /api/products/:id, which may change
selling_price and manufacturing_cost) leaves the recorded Sales rows
untouched. -/
theorem sale_price_snapshot (raw : List RawCartItem) (s : Store) (r : CheckoutResult)
    (s' : Store) (h : executeCheckout raw s = (.ok r, s')) :
    (∃ rows, s'.sales = s.sales ++ rows ∧ ∀ row ∈ rows, ∃ p,
      findProduct s row.product_id = some p ∧
      row.total_price = p.selling_price * row.quantity ∧
      row.total_profit = (p.selling_price - p.manufacturing_cost) * row.quantity) ∧
    ∀ pid b s2, putProduct s' pid b = some (.ok s2) → s2.sales = s'.sales := by
  have h1 : (executeCheckout raw s).1 = .ok r := by rw [h]
  obtain ⟨items, hparse, hbody⟩ := executeCheckout_ok_body_inv raw s r h1
  have hs' : (executeCheckout raw s).2 = s' := by rw [h]
  rw [hs'] at hbody
  obtain ⟨hfound, hsales⟩ := checkoutBody_ok_sales s items r s' hbody
  constructor
  · refine ⟨saleRowsFrom s.products items 0, hsales, ?_⟩
    intro row hrow
    obtain ⟨it, hit, hpid, hqty, hprice, hprofit⟩ :=
      saleRowsFrom_mem s.products items 0 row hrow
    obtain ⟨p0, hp0, hp0id⟩ := hfound it hit
    have hiss : (s.products.find? (fun p => p.id = it.product_id)).isSome :=
      List.find?_isSome.mpr ⟨p0, hp0, by simp [hp0id]⟩
    obtain ⟨p, hp⟩ := Option.isSome_iff_exists.mp hiss
    have hsnapp : snapshotProduct s.products it.product_id = p := by
      unfold snapshotProduct
      rw [hp]
      rfl
    refine ⟨p, ?_, ?_, ?_⟩
    · show findProduct s row.product_id = some p
      rw [hpid]
      exact hp
    · rw [hprice, hqty, hsnapp]
    · rw [hprofit, hqty, hsnapp]
  · intro pid b s2 hput
    exact putProduct_sales s' pid b s2 hput

/-- Witness for C9: the example checkout snapshots prices, and no product
update can touch the recorded rows. -/
theorem sale_price_snapshot_witness :
    ∃ r s', executeCheckout cartA storeA = (.ok r, s') ∧
      (∃ rows, s'.sales = storeA.sales ++ rows ∧ ∀ row ∈ rows, ∃ p,
        findProduct storeA row.product_id = some p ∧
        row.total_price = p.selling_price * row.quantity ∧
        row.total_profit = (p.selling_price - p.manufacturing_cost) * row.quantity) ∧
      ∀ pid b s2, putProduct s' pid b = some (.ok s2) → s2.sales = s'.sales := by
  have hsuff : ∀ rm ∈ storeA.rawMaterials,
      requiredOf storeA itemsA rm.id ≤ rm.quantity_available := by
    intro rm hrm
    simp only [storeA, List.mem_singleton] at hrm
    subst hrm
    norm_num [requiredOf, computeRequired, loadIngredientRows, findMaterial, bumpAssoc,
      lookupQ, storeA, itemsA, List.foldl, List.filter, List.filterMap, List.find?,
      List.contains, List.elem]
  have hbody := checkoutBody_ok_spec storeA itemsA (by decide) (by decide) hsuff
  have hrun := executeCheckout_ok_of_body cartA storeA itemsA _ _ (by rfl) hbody
  have hmain := sale_price_snapshot cartA storeA _ _ hrun
  exact ⟨_, _, hrun, hmain.1, hmain.2⟩

/-! ### Product deletion cascades into the Sales journal (C10) -/

theorem sale_sum_split (l : List Sale) (pid : String) (f : Sale → ℚ) :
    ((l.filter (fun sa => sa.product_id = pid)).map f).sum +
      ((l.filter (fun sa => sa.product_id ≠ pid)).map f).sum = (l.map f).sum := by
  induction l with
  | nil => simp
  | cons a t ih =>
      by_cases h : a.product_id = pid <;>
        simp [List.filter_cons, h, ← ih] <;> ring

theorem sale_filter_lt_length (l : List Sale) (pid : String)
    (h : ∃ sa ∈ l, sa.product_id = pid) :
    (l.filter (fun sa => sa.product_id ≠ pid)).length < l.length := by
  induction l with
  | nil => simp at h
  | cons a t ih =>
      by_cases hc : a.product_id = pid
      · have hfil : ((a :: t).filter (fun sa => sa.product_id ≠ pid)) =
            t.filter (fun sa => sa.product_id ≠ pid) := by
          simp [List.filter_cons, hc]
        rw [hfil]
        calc (t.filter (fun sa => sa.product_id ≠ pid)).length
            ≤ t.length := List.length_filter_le _ _
          _ < (a :: t).length := by simp [Nat.lt_succ_self]
      · obtain ⟨sa, hsa, hsaid⟩ := h
        rcases List.mem_cons.mp hsa with he | he
        · exact absurd (he ▸ hsaid) hc
        · have := ih ⟨sa, he, hsaid⟩
          have hfil : ((a :: t).filter (fun sa => sa.product_id ≠ pid)) =
              a :: t.filter (fun sa => sa.product_id ≠ pid) := by
            simp [List.filter_cons, hc]
          rw [hfil]
          simpa using Nat.succ_lt_succ this

/-- C10: deleting a product cascades into the Sales journal. If the
product has at least one recorded sale, the delete removes exactly its
sale rows (the journal is not preserved), the transaction count strictly
drops, and every summary total drops by exactly the removed rows'
contribution. -/
theorem product_delete_cascade (s : Store) (pid : String)
    (h : ∃ sa ∈ s.sales, sa.product_id = pid) :
    (deleteProduct s pid).sales = s.sales.filter (fun sa => sa.product_id ≠ pid) ∧
    (∀ sa ∈ (deleteProduct s pid).sales, sa.product_id ≠ pid) ∧
    (salesSummary (deleteProduct s pid)).total_transactions <
      (salesSummary s).total_transactions ∧
    (salesSummary (deleteProduct s pid)).total_revenue =
      (salesSummary s).total_revenue -
        ((s.sales.filter (fun sa => sa.product_id = pid)).map
          (fun sa => sa.total_price)).sum ∧
    (salesSummary (deleteProduct s pid)).total_profit =
      (salesSummary s).total_profit -
        ((s.sales.filter (fun sa => sa.product_id = pid)).map
          (fun sa => sa.total_profit)).sum ∧
    (salesSummary (deleteProduct s pid)).total_items_sold =
      (salesSummary s).total_items_sold -
        ((s.sales.filter (fun sa => sa.product_id = pid)).map
          (fun sa => sa.quantity)).sum := by
  refine ⟨rfl, ?_, ?_, ?_, ?_, ?_⟩
  · intro sa hsa
    have := List.of_mem_filter hsa
    exact of_decide_eq_true this
  · exact sale_filter_lt_length s.sales pid h
  · have := sale_sum_split s.sales pid (fun sa => sa.total_price)
    simp only [salesSummary, deleteProduct]
    linarith
  · have := sale_sum_split s.sales pid (fun sa => sa.total_profit)
    simp only [salesSummary, deleteProduct]
    linarith
  · have := sale_sum_split s.sales pid (fun sa => sa.quantity)
    simp only [salesSummary, deleteProduct]
    linarith

/-- The C10 example store: a journal with one sale of product p1 and one
of p2. -/
def storeC10 : Store :=
  ⟨[⟨"p1", "Cake", 3, 10, 2⟩], [], [], [⟨"s1", "p1", 2, 20, 14⟩, ⟨"s2", "p2", 1, 5, 2⟩]⟩

/-- Witness for C10: deleting p1 drops its sale row, one transaction, and
its contribution to every summary total. -/
theorem product_delete_cascade_witness :
    (deleteProduct storeC10 "p1").sales =
      storeC10.sales.filter (fun sa => sa.product_id ≠ "p1") ∧
    (∀ sa ∈ (deleteProduct storeC10 "p1").sales, sa.product_id ≠ "p1") ∧
    (salesSummary (deleteProduct storeC10 "p1")).total_transactions <
      (salesSummary storeC10).total_transactions ∧
    (salesSummary (deleteProduct storeC10 "p1")).total_revenue =
      (salesSummary storeC10).total_revenue -
        ((storeC10.sales.filter (fun sa => sa.product_id = "p1")).map
          (fun sa => sa.total_price)).sum ∧
    (salesSummary (deleteProduct storeC10 "p1")).total_profit =
      (salesSummary storeC10).total_profit -
        ((storeC10.sales.filter (fun sa => sa.product_id = "p1")).map
          (fun sa => sa.total_profit)).sum ∧
    (salesSummary (deleteProduct storeC10 "p1")).total_items_sold =
      (salesSummary storeC10).total_items_sold -
        ((storeC10.sales.filter (fun sa => sa.product_id = "p1")).map
          (fun sa => sa.quantity)).sum :=
  product_delete_cascade storeC10 "p1" (by decide)


end Restro
